import Mathlib

/-!
# mini-react: reconciler, patch applier and update queue

A shallow embedding of `src/virtual-dom/index.js`, `src/update-queue.js` and the update
cycle and hooks of `src/component.js`.

Modelling conventions
* A JavaScript object is the list of its own enumerable properties in insertion order;
  property names that look like array indices are kept in insertion order.
* Attribute mappings, style objects and the objects `diff` creates are plain objects: they
  inherit the members of `Object.prototype` (`protoMembers`), which the operator `in` and a
  property read see, and an assignment to `__proto__` creates no own property. The further
  members of functions and of the wrappers of primitive values (`String.prototype` and the
  like) are not modelled.
* Numbers are the integers and NaN; `===` is false on NaN and `Object.is` is true on it.
* Objects and functions have an identity (`ref`); `===` on them compares identities.
* A thrown JavaScript exception is the result `Res.typeError`.
* Recursion and the `while` loop of `diffChildren` consume fuel; `Res.outOfFuel` is not a
  behaviour of the program.
* `concurrency.shouldYield()` is an oracle `Nat → Bool` asked with the number of earlier calls.
-/

namespace MiniReact

/-! ## Values -/

/-- Primitive JavaScript values (numbers are the integers and NaN). -/
inductive Prim where
  | undefined
  | null
  | bool (b : Bool)
  | num (n : Int)
  | nan
  | str (s : String)
  deriving DecidableEq, Repr

/-- Attribute values: primitives, functions created by the program (event handlers), flat
objects (style), and the built-in members of `Object.prototype`, named by their property
name (`builtin "__proto__"` is the prototype object itself). -/
inductive Val where
  | prim (p : Prim)
  | fn (ref : Nat)
  | obj (ref : Nat) (fields : List (String × Prim))
  | builtin (name : String)
  deriving DecidableEq, Repr

/-- Own enumerable properties of an object. -/
abbrev Obj (α : Type) := List (String × α)

/-- Attribute mapping of a virtual node. -/
abbrev Props := Obj Val

/-- Property read `o[k]`; `none` stands for an absent property. -/
def Obj.get? {α : Type} (o : Obj α) (k : String) : Option α :=
  List.lookup k o

/-- The test `Object.prototype.hasOwnProperty.call(o, k)`: `k` is an own property. -/
def Obj.has {α : Type} (o : Obj α) (k : String) : Bool :=
  (List.lookup k o).isSome

/-- The property names of `Object.prototype`. -/
def protoMembers : List String :=
  ["constructor", "__defineGetter__", "__defineSetter__", "hasOwnProperty",
    "__lookupGetter__", "__lookupSetter__", "isPrototypeOf", "propertyIsEnumerable",
    "toString", "valueOf", "__proto__", "toLocaleString"]

/-- The name is a property name of `Object.prototype`. -/
def isProtoMember (k : String) : Bool :=
  protoMembers.any (fun m => decide (m = k))

/-- The test `k in o` on a plain object: an own property or a member of
`Object.prototype`. -/
def Obj.hasIn {α : Type} (o : Obj α) (k : String) : Bool :=
  Obj.has o k || isProtoMember k

/-- The assignment `o[k] = v`: overwrite in place or append a new property. -/
def Obj.set {α : Type} : Obj α → String → α → Obj α
  | [], k, v => [(k, v)]
  | (k0, v0) :: t, k, v => if k0 = k then (k, v) :: t else (k0, v0) :: Obj.set t k v

/-- The assignment `o[k] = v` on a plain object created by an object literal: it writes an
own property, except that `__proto__` names the accessor inherited from `Object.prototype`,
whose setter creates no own property. -/
def Obj.assign {α : Type} (o : Obj α) (k : String) (v : α) : Obj α :=
  if k = "__proto__" then o else Obj.set o k v

/-- The list `Object.keys(o)`. -/
def Obj.keys {α : Type} (o : Obj α) : List String :=
  o.map Prod.fst

/-- What a read `o[k]` yields when `o` has no own property `k`: the member of
`Object.prototype` of that name, or `undefined`. -/
def inheritedMember (k : String) : Val :=
  if isProtoMember k then .builtin k else .prim .undefined

/-- Property read `p[k]` on an attribute mapping. -/
def Props.read (p : Props) (k : String) : Val :=
  match Obj.get? p k with
  | some v => v
  | none => inheritedMember k

/-- JavaScript `a === b` on primitives: NaN is not equal to itself. -/
def Prim.strictEq (p q : Prim) : Bool :=
  decide (p = q) && decide (p ≠ .nan)

/-- JavaScript `a === b`. -/
def Val.strictEq : Val → Val → Bool
  | .prim p, .prim q => Prim.strictEq p q
  | .fn a, .fn b => decide (a = b)
  | .obj a _, .obj b _ => decide (a = b)
  | .builtin a, .builtin b => decide (a = b)
  | _, _ => false

/-- JavaScript `Object.is(a, b)`: like `===`, except that NaN is the same value as NaN. -/
def Val.sameValue : Val → Val → Bool
  | .prim p, .prim q => decide (p = q)
  | .fn a, .fn b => decide (a = b)
  | .obj a _, .obj b _ => decide (a = b)
  | .builtin a, .builtin b => decide (a = b)
  | _, _ => false

/-- JavaScript truthiness of a value. -/
def Val.truthy : Val → Bool
  | .prim .undefined => false
  | .prim .null => false
  | .prim (.bool b) => b
  | .prim (.num n) => decide (n ≠ 0)
  | .prim .nan => false
  | .prim (.str s) => decide (s ≠ "")
  | .fn _ => true
  | .obj _ _ => true
  | .builtin _ => true

/-- Property name a value is converted to when used as `o[v]` or `v in o`.
A function is named after its identity. -/
def Val.keyName : Val → String
  | .prim .undefined => "undefined"
  | .prim .null => "null"
  | .prim (.bool true) => "true"
  | .prim (.bool false) => "false"
  | .prim (.num n) => toString n
  | .prim .nan => "NaN"
  | .prim (.str s) => s
  | .fn ref => "function " ++ toString ref
  | .obj _ _ => "[object Object]"
  | .builtin name =>
      if name = "__proto__" then "[object Object]"
      else "function " ++ name ++ "() { [native code] }"

/-- Outcome of running a piece of the program. -/
inductive Res (α : Type) where
  | ok (a : α)
  | typeError
  | outOfFuel
  deriving Repr

/-- Sequencing of outcomes. -/
def Res.bind {α β : Type} : Res α → (α → Res β) → Res β
  | .ok a, f => f a
  | .typeError, _ => .typeError
  | .outOfFuel, _ => .outOfFuel

/-- Image of an outcome. -/
def Res.map {α β : Type} (f : α → β) : Res α → Res β
  | .ok a => .ok (f a)
  | .typeError => .typeError
  | .outOfFuel => .outOfFuel

/-- The characters of a string primitive at the index named by `k`. -/
def strIndex (s : String) (k : String) : Option Char :=
  ((List.range s.length).find? (fun i => toString i = k)).bind (fun i => s.data.get? i)

/-- The list `Object.keys(v)` for an arbitrary value. -/
def Val.ownKeys : Val → Res (List String)
  | .prim .undefined => .typeError
  | .prim .null => .typeError
  | .prim (.str s) => .ok ((List.range s.length).map toString)
  | .prim _ => .ok []
  | .fn _ => .ok []
  | .obj _ fields => .ok (Obj.keys fields)
  | .builtin _ => .ok []

/-- The read `v[k]` for a key `k` of `Object.keys(v)`: the own property. -/
def Val.field : Val → String → Res Prim
  | .prim .undefined, _ => .typeError
  | .prim .null, _ => .typeError
  | .prim (.str s), k =>
      match strIndex s k with
      | some c => .ok (.str c.toString)
      | none => if k = "length" then .ok (.num s.length) else .ok .undefined
  | .prim _, _ => .ok .undefined
  | .fn _, _ => .ok .undefined
  | .obj _ fields, k => .ok ((Obj.get? fields k).getD .undefined)
  | .builtin _, _ => .ok .undefined

/-- The read `v[k]` for an arbitrary value and key: the own property, or the member
inherited from `Object.prototype`. -/
def Val.member : Val → String → Res Val
  | .prim .undefined, _ => .typeError
  | .prim .null, _ => .typeError
  | .prim (.str s), k =>
      match strIndex s k with
      | some c => .ok (.prim (.str c.toString))
      | none => if k = "length" then .ok (.prim (.num s.length)) else .ok (inheritedMember k)
  | .prim _, k => .ok (inheritedMember k)
  | .fn _, k => .ok (inheritedMember k)
  | .obj _ fields, k =>
      match Obj.get? fields k with
      | some p => .ok (.prim p)
      | none => .ok (inheritedMember k)
  | .builtin _, k => .ok (inheritedMember k)

/-- The test `k in v` for an arbitrary value; it throws on a primitive. -/
def Val.hasField : Val → String → Res Bool
  | .prim _, _ => .typeError
  | .fn _, k => .ok (isProtoMember k)
  | .obj _ fields, k => .ok (Obj.hasIn fields k)
  | .builtin _, k => .ok (isProtoMember k)

/-! ## Virtual nodes and operations -/

/-- A value found where a virtual node is expected: `null`/`undefined`, a string (text
child) or a `VNode` record, whose `props` and `children` may be `undefined`. -/
inductive VNode where
  | absent
  | text (s : String)
  | elem (type : String) (props : Option Props) (children : Option (List VNode))
  deriving Repr

/-- JavaScript truthiness of a node value: `null`, `undefined` and `""` are falsy. -/
def VNode.truthy : VNode → Bool
  | .absent => false
  | .text s => decide (s ≠ "")
  | .elem _ _ _ => true

/-- The read `node.type` on a non-null value (`none` is `undefined`). -/
def VNode.typeOf : VNode → Option String
  | .elem t _ _ => some t
  | _ => none

/-- The read `node.props` on a non-null value. -/
def VNode.propsOf : VNode → Option Props
  | .elem _ p _ => p
  | _ => none

/-- The read `node.children` on a non-null value. -/
def VNode.childrenOf : VNode → Option (List VNode)
  | .elem _ _ c => c
  | _ => none

/-- The read `node.props?.key` on a non-null value. -/
def VNode.keyOf (v : VNode) : Val :=
  match v.propsOf with
  | some p => Props.read p "key"
  | none => .prim .undefined

/-- The old node after its child array has been mutated in place. -/
def VNode.withChildren : VNode → List VNode → VNode
  | .elem t p _, cs => .elem t p (some cs)
  | v, _ => v

/-- Entries of the operation list. A `MOVE` has no `index` of its own; it acquires one when
a parent re-indexes the operations of a child. -/
inductive Patch where
  | PAUSE (index : Nat)
  | REMOVE (index : Nat)
  | ADD (newNode : VNode) (index : Nat)
  | REPLACE (newNode : VNode) (index : Nat)
  | UPDATE_PROPS (props : Props) (index : Nat)
  | MOVE (fromIndex toIndex : Nat) (index : Option Nat)
  deriving Repr

/-- The object spread `{...patch, index: i}`. -/
def Patch.withIndex (i : Nat) : Patch → Patch
  | .PAUSE _ => .PAUSE i
  | .REMOVE _ => .REMOVE i
  | .ADD n _ => .ADD n i
  | .REPLACE n _ => .REPLACE n i
  | .UPDATE_PROPS p _ => .UPDATE_PROPS p i
  | .MOVE f t _ => .MOVE f t (some i)

/-! ## diffProps -/

/-- First loop of `diffProps`: keys of the old mapping absent from the new one. -/
def diffPropsRemoved (newProps : Props) : List String → Props → Props
  | [], patches => patches
  | key :: rest, patches =>
      if Obj.hasIn newProps key then diffPropsRemoved newProps rest patches
      else diffPropsRemoved newProps rest (Obj.assign patches key (.prim .null))

/-- Style loop over `Object.keys(newProps.style)`. -/
def styleChanged (oldStyle newStyle : Val) : List String → Obj Prim → Res (Obj Prim)
  | [], acc => .ok acc
  | styleKey :: rest, acc =>
      (Val.member oldStyle styleKey).bind fun ov =>
      (Val.field newStyle styleKey).bind fun nv =>
        if Val.strictEq ov (.prim nv) = false then
          styleChanged oldStyle newStyle rest (Obj.assign acc styleKey nv)
        else styleChanged oldStyle newStyle rest acc

/-- Style loop over `Object.keys(oldProps.style)`. -/
def styleRemoved (newStyle : Val) : List String → Obj Prim → Res (Obj Prim)
  | [], acc => .ok acc
  | styleKey :: rest, acc =>
      (Val.hasField newStyle styleKey).bind fun present =>
        if present then styleRemoved newStyle rest acc
        else styleRemoved newStyle rest (Obj.assign acc styleKey (.str ""))

/-- The nested style delta built when the `style` values differ. -/
def stylePatches (oldStyle newStyle : Val) : Res (Obj Prim) :=
  (Val.ownKeys newStyle).bind fun newKeys =>
  (styleChanged oldStyle newStyle newKeys []).bind fun acc =>
  (Val.ownKeys oldStyle).bind fun oldKeys =>
    styleRemoved newStyle oldKeys acc

/-- Second loop of `diffProps`: keys of the new mapping whose value differs. The object
built for a style delta is fresh; its identity is never observed and is written 0. -/
def diffPropsChanged (oldProps newProps : Props) : List String → Props → Res Props
  | [], patches => .ok patches
  | key :: rest, patches =>
      if Val.strictEq (Props.read oldProps key) (Props.read newProps key) then
        diffPropsChanged oldProps newProps rest patches
      else if key = "style" then
        (stylePatches (Props.read oldProps "style") (Props.read newProps "style")).bind fun sp =>
          diffPropsChanged oldProps newProps rest (Obj.set patches "style" (.obj 0 sp))
      else
        diffPropsChanged oldProps newProps rest
          (Obj.assign patches key (Props.read newProps key))

/-- Model of `diffProps(oldProps, newProps)`; `Object.keys(undefined)` throws. -/
def diffProps : Option Props → Option Props → Res Props
  | some oldProps, some newProps =>
      diffPropsChanged oldProps newProps (Obj.keys newProps)
        (diffPropsRemoved newProps (Obj.keys oldProps) [])
  | _, _ => .typeError

/-! ## diff -/

/-- Model of `isSameNode(a, b)`; reading `.type` of `null`/`undefined` throws. -/
def isSameNode : VNode → VNode → Res Bool
  | .absent, _ => .typeError
  | _, .absent => .typeError
  | a, b => .ok (decide (a.typeOf = b.typeOf) && Val.strictEq a.keyOf b.keyOf)

/-- The `forEach` that fills `keyIndexMap`; `child.props` throws on `null`/`undefined`. -/
def buildKeyIndexMap : List VNode → Nat → Obj Nat → Res (Obj Nat)
  | [], _, m => .ok m
  | .absent :: _, _, _ => .typeError
  | child :: rest, index, m =>
      if child.keyOf.truthy then
        buildKeyIndexMap rest (index + 1) (Obj.assign m child.keyOf.keyName index)
      else buildKeyIndexMap rest (index + 1) m

/-- The call `arr.splice(i, 1)`. -/
def spliceOut {α : Type} (arr : List α) (i : Nat) : List α :=
  arr.take i ++ arr.drop (i + 1)

/-- The call `arr.splice(i, 0, x)`. -/
def spliceIn {α : Type} (arr : List α) (i : Nat) (x : α) : List α :=
  arr.take i ++ x :: arr.drop i

/-- The `while` loop of `diffChildren`. `recur clock a b` is the nested call `diff(a, b)`
and returns the operations, the old child after the call and the oracle clock. When the key
of the new child names a member that `keyIndexMap` only inherits, `key in keyIndexMap` is
true, `keyIndexMap[key]` is a built-in, `oldChildren[...]` of it is `undefined` and
`isSameNode` throws. -/
def diffChildrenLoop (recur : Nat → VNode → VNode → Res (List Patch × VNode × Nat))
    (keyIndexMap : Obj Nat) (newChildren : List VNode) :
    Nat → Nat → List VNode → Nat → Nat → List Patch → Res (List Patch × List VNode × Nat)
  | 0, _, _, _, _, _ => .outOfFuel
  | fuel + 1, clock, oldChildren, newIndex, oldIndex, patches =>
      if newIndex < newChildren.length ∨ oldIndex < oldChildren.length then
        let newChild := newChildren.getD newIndex .absent
        let oldChild := oldChildren.getD oldIndex .absent
        if !oldChild.truthy then
          diffChildrenLoop recur keyIndexMap newChildren fuel clock oldChildren
            (newIndex + 1) oldIndex (patches ++ [.ADD newChild newIndex])
        else if !newChild.truthy then
          diffChildrenLoop recur keyIndexMap newChildren fuel clock oldChildren
            newIndex (oldIndex + 1) (patches ++ [.REMOVE oldIndex])
        else
          match isSameNode oldChild newChild with
          | .typeError => .typeError
          | .outOfFuel => .outOfFuel
          | .ok true =>
              match recur clock oldChild newChild with
              | .typeError => .typeError
              | .outOfFuel => .outOfFuel
              | .ok (childPatches, oldChildAfter, clockAfter) =>
                  diffChildrenLoop recur keyIndexMap newChildren fuel clockAfter
                    (oldChildren.set oldIndex oldChildAfter) (newIndex + 1) (oldIndex + 1)
                    (patches ++ childPatches.map (Patch.withIndex oldIndex))
          | .ok false =>
              let replace :=
                diffChildrenLoop recur keyIndexMap newChildren fuel clock oldChildren
                  (newIndex + 1) (oldIndex + 1) (patches ++ [.REPLACE newChild oldIndex])
              match Obj.get? keyIndexMap newChild.keyOf.keyName with
              | none =>
                  if isProtoMember newChild.keyOf.keyName then .typeError else replace
              | some matchedOldIndex =>
                  let matchedOldChild := oldChildren.getD matchedOldIndex .absent
                  match isSameNode matchedOldChild newChild with
                  | .typeError => .typeError
                  | .outOfFuel => .outOfFuel
                  | .ok false => replace
                  | .ok true =>
                      diffChildrenLoop recur keyIndexMap newChildren fuel clock
                        (spliceIn (spliceOut oldChildren matchedOldIndex) oldIndex matchedOldChild)
                        (newIndex + 1) oldIndex
                        (patches ++ [.MOVE matchedOldIndex newIndex none])
      else .ok (patches, oldChildren, clock)

/-- Model of `diffChildren(oldChildren, newChildren)`; an `undefined` child array throws. -/
def diffChildren (recur : Nat → VNode → VNode → Res (List Patch × VNode × Nat)) (fuel : Nat)
    (clock : Nat) : Option (List VNode) → Option (List VNode) →
    Res (List Patch × List VNode × Nat)
  | some oldChildren, some newChildren =>
      match buildKeyIndexMap oldChildren 0 [] with
      | .ok keyIndexMap =>
          diffChildrenLoop recur keyIndexMap newChildren fuel clock oldChildren 0 0 []
      | .typeError => .typeError
      | .outOfFuel => .outOfFuel
  | _, _ => .typeError

/-- Model of `dfsWalk(oldNode, newNode, patches, index)` started on an empty `patches`.
`children` is the call `diffChildren`. The result carries the operations pushed, the old
node after the walk and the oracle clock. -/
def dfsWalk
    (children : Nat → Option (List VNode) → Option (List VNode) →
      Res (List Patch × List VNode × Nat))
    (shouldYield : Nat → Bool) (clock : Nat) (oldNode newNode : VNode) (index : Nat) :
    Res (List Patch × VNode × Nat) :=
  if index % 3 = 0 ∧ shouldYield clock = true then
    .ok ([.PAUSE index], oldNode, clock + 1)
  else
    let clock := if index % 3 = 0 then clock + 1 else clock
    if !oldNode.truthy && !newNode.truthy then .ok ([], oldNode, clock)
    else if !newNode.truthy then .ok ([.REMOVE index], oldNode, clock)
    else if !oldNode.truthy then .ok ([.ADD newNode index], oldNode, clock)
    else if oldNode.typeOf ≠ newNode.typeOf then .ok ([.REPLACE newNode index], oldNode, clock)
    else
      match diffProps oldNode.propsOf newNode.propsOf with
      | .typeError => .typeError
      | .outOfFuel => .outOfFuel
      | .ok propsPatches =>
          let own := if propsPatches.length > 0 then [Patch.UPDATE_PROPS propsPatches index] else []
          match children clock oldNode.childrenOf newNode.childrenOf with
          | .typeError => .typeError
          | .outOfFuel => .outOfFuel
          | .ok (childrenPatches, oldChildren, clockAfter) =>
              .ok (own ++ childrenPatches, oldNode.withChildren oldChildren, clockAfter)

/-- The recursion `diff → dfsWalk → diffChildren → diff` with the state it threads:
operations, the old tree after the call, and the oracle clock. The two trees are given as
values: a node object that both trees contain is not represented as shared, so the splices
of the MOVE branch show in the old tree only. -/
def diffRun : Nat → (Nat → Bool) → Nat → VNode → VNode → Res (List Patch × VNode × Nat)
  | 0, _, _, _, _ => .outOfFuel
  | fuel + 1, shouldYield, clock, oldNode, newNode =>
      dfsWalk (diffChildren (diffRun fuel shouldYield) fuel) shouldYield clock oldNode newNode 0

/-- Model of `diff(oldNode, newNode)`: the operation list returned. -/
def diff (fuel : Nat) (shouldYield : Nat → Bool) (oldNode newNode : VNode) : Res (List Patch) :=
  (diffRun fuel shouldYield 0 oldNode newNode).map Prod.fst

/-- The oracle of a run in which `shouldYield()` is false throughout. -/
def neverYield : Nat → Bool := fun _ => false

/-! ## Render target -/

/-- Script-visible state carried by every DOM node: properties assigned as `node[key] = v`,
listeners registered with `addEventListener`, and the table `node._listeners`. -/
structure NodeState where
  props : Props
  events : List (String × Val)
  table : Option (Obj Val)
  deriving DecidableEq, Repr

/-- State of a freshly created DOM node. -/
def NodeState.empty : NodeState := ⟨[], [], none⟩

/-- A DOM node: a text node or an element with its inline style and child nodes. -/
inductive Dom where
  | text (data : String) (own : NodeState)
  | elem (tag : String) (own : NodeState) (style : Obj Prim) (children : List Dom)
  deriving Repr

/-- The list `node.childNodes`. -/
def Dom.childNodes : Dom → List Dom
  | .text _ _ => []
  | .elem _ _ _ cs => cs

/-- The node with another child list. -/
def Dom.withChildNodes : Dom → List Dom → Dom
  | .elem tag own style _, cs => .elem tag own style cs
  | d, _ => d

/-- The state record of a node. -/
def Dom.own : Dom → NodeState
  | .text _ own => own
  | .elem _ own _ _ => own

/-- The node with another state record. -/
def Dom.withOwn : Dom → NodeState → Dom
  | .text data _, own => .text data own
  | .elem tag _ style cs, own => .elem tag own style cs

/-- The test `key.startsWith("on")`. -/
def startsWithOn (key : String) : Bool :=
  match key.data with
  | 'o' :: 'n' :: _ => true
  | _ => false

/-- The expression `key.toLowerCase().substring(2)` (ASCII case folding). -/
def eventTypeOf (key : String) : String :=
  String.mk ((key.data.map Char.toLower).drop 2)

/-- The call `node.addEventListener(type, handler)`: a nullish handler is ignored, another
primitive is rejected, a listener already registered is not added twice. -/
def addEventListener (own : NodeState) (type : String) (handler : Val) : Res NodeState :=
  match handler with
  | .prim .undefined => .ok own
  | .prim .null => .ok own
  | .prim _ => .typeError
  | h =>
      if (type, h) ∈ own.events then .ok own
      else .ok ⟨own.props, own.events ++ [(type, h)], own.table⟩

/-- The call `node.removeEventListener(type, handler)`. -/
def removeEventListener (own : NodeState) (type : String) (handler : Val) : Res NodeState :=
  match handler with
  | .prim .undefined => .ok own
  | .prim .null => .ok own
  | .prim _ => .typeError
  | h => .ok ⟨own.props, own.events.filter (fun e => decide (e ≠ (type, h))), own.table⟩

/-- The pair of statements `node._listeners = node._listeners || {}` and
`node._listeners[type] = handler`. -/
def recordListener (own : NodeState) (type : String) (handler : Val) : NodeState :=
  ⟨own.props, own.events, some (Obj.set (own.table.getD []) type handler)⟩

/-- Property pairs copied by `Object.assign(target, v)` or enumerated by a style loop. -/
def Val.entries : Val → Res (Obj Prim)
  | .prim .undefined => .typeError
  | .prim .null => .typeError
  | .prim (.str s) => .ok ((List.range s.length).map fun i =>
      (toString i, Prim.str ((s.data.getD i ' ').toString)))
  | .prim _ => .ok []
  | .fn _ => .ok []
  | .obj _ fields => .ok fields
  | .builtin _ => .ok []

/-- Field by field assignment into a style declaration. -/
def assignStyle (style : Obj Prim) (src : Obj Prim) : Obj Prim :=
  src.foldl (fun acc kv => Obj.set acc kv.1 kv.2) style

/-- The attribute loop of `createElement` on a fresh element. -/
def createProps : Props → NodeState → Obj Prim → Res (NodeState × Obj Prim)
  | [], own, style => .ok (own, style)
  | (key, v) :: rest, own, style =>
      if startsWithOn key then
        (addEventListener own (eventTypeOf key) v).bind fun own1 =>
          createProps rest (recordListener own1 (eventTypeOf key) v) style
      else if key = "style" then
        match v with
        | .prim .undefined => createProps rest own style
        | .prim .null => createProps rest own style
        | src => (Val.entries src).bind fun fields => createProps rest own (assignStyle style fields)
      else
        createProps rest ⟨Obj.set own.props key v, own.events, own.table⟩ style

mutual
/-- Model of `createElement(vnode)` of `virtual-dom/index.js`. -/
def createElement : VNode → Res Dom
  | .absent => .typeError
  | .text s => .ok (.text s NodeState.empty)
  | .elem type props children =>
      (createProps (props.getD []) NodeState.empty []).bind fun st =>
        match children with
        | none => .ok (.elem type st.1 st.2 [])
        | some cs => (createElements cs).bind fun ds => .ok (.elem type st.1 st.2 ds)
/-- The loop `vnode.children.forEach(child => el.appendChild(createElement(child)))`. -/
def createElements : List VNode → Res (List Dom)
  | [] => .ok []
  | c :: cs => (createElement c).bind fun d => (createElements cs).bind fun ds => .ok (d :: ds)
end

/-! ## patch -/

/-- One iteration of the key loop of the `UPDATE_PROPS` case on an existing node. The flag
tells whether the iteration completed; `false` means it threw after the mutations shown. -/
def updateProp (node : Dom) (key : String) (v : Val) : Dom × Bool :=
  if startsWithOn key then
    let eventType := eventTypeOf key
    let previous := (((node.own.table.getD []).get? eventType)).getD (.prim .undefined)
    match removeEventListener node.own eventType previous with
    | .ok own1 =>
        match addEventListener own1 eventType v with
        | .ok own2 => (node.withOwn (recordListener own2 eventType v), true)
        | _ => (node.withOwn own1, false)
    | _ => (node, false)
  else if key = "style" then
    match Val.entries v, node with
    | .ok fields, .elem tag own style cs => (.elem tag own (assignStyle style fields) cs, true)
    | .ok [], .text data own => (.text data own, true)
    | _, _ => (node, false)
  else
    (node.withOwn ⟨Obj.set node.own.props key v, node.own.events, node.own.table⟩, true)

/-- The loop `Object.keys(patch.props).forEach(...)` on `node`, absent when the index
resolved to `undefined`. -/
def updateProps : Option Dom → Props → Option Dom × Bool
  | node, [] => (node, true)
  | none, _ :: _ => (none, false)
  | some node, (key, v) :: rest =>
      match updateProp node key v with
      | (node1, true) => updateProps (some node1) rest
      | (node1, false) => (some node1, false)

/-- Body of the `forEach` callback of `patch` for an operation other than `PAUSE`. The flag
tells whether the callback returned normally. -/
def applyPatch (parentDom : Dom) : Patch → Dom × Bool
  | .PAUSE _ => (parentDom, true)
  | .MOVE _ _ _ => (parentDom, true)
  | .ADD newNode _ =>
      match createElement newNode, parentDom with
      | .ok el, .elem tag own style cs => (.elem tag own style (cs ++ [el]), true)
      | _, _ => (parentDom, false)
  | .REMOVE index =>
      if index < parentDom.childNodes.length then
        (parentDom.withChildNodes (spliceOut parentDom.childNodes index), true)
      else (parentDom, false)
  | .REPLACE newNode index =>
      match createElement newNode with
      | .ok el =>
          if index < parentDom.childNodes.length then
            (parentDom.withChildNodes (parentDom.childNodes.set index el), true)
          else (parentDom, false)
      | _ => (parentDom, false)
  | .UPDATE_PROPS props index =>
      match updateProps (parentDom.childNodes.get? index) props with
      | (some node, done) => (parentDom.withChildNodes (parentDom.childNodes.set index node), done)
      | (none, done) => (parentDom, done)

/-- The `forEach` of `patch` from position `i`: the target after the loop and the index
thrown by a `PAUSE`, if any. An exception that is not a number is swallowed by the `catch`
and ends the loop. -/
def patchLoop (parentDom : Dom) : List Patch → Nat → Dom × Option Nat
  | [], _ => (parentDom, none)
  | .PAUSE _ :: _, i => (parentDom, some i)
  | p :: rest, i =>
      match applyPatch parentDom p with
      | (dom1, true) => patchLoop dom1 rest (i + 1)
      | (dom1, false) => (dom1, none)

/-- Model of `patch(parentDom, patches)`: the target after the call and the operation list
of the resumption handed to `requestIdleCallback`, if one was scheduled. -/
def patch (parentDom : Dom) (patches : List Patch) : Dom × Option (List Patch) :=
  match patchLoop parentDom patches 0 with
  | (dom1, some resumeIndex) => (dom1, some (patches.drop resumeIndex))
  | (dom1, none) => (dom1, none)

/-! ## Update queue -/

/-- The constants of `UpdatePriorities`. -/
def ImmediatePriority : Nat := 1
/-- The constant `UpdatePriorities.UserBlockingPriority`. -/
def UserBlockingPriority : Nat := 2
/-- The constant `UpdatePriorities.NormalPriority`. -/
def NormalPriority : Nat := 3
/-- The constant `UpdatePriorities.LowPriority`. -/
def LowPriority : Nat := 4
/-- The constant `UpdatePriorities.IdlePriority`. -/
def IdlePriority : Nat := 5

/-- An entry of `updateQueue`; the component instance is named by its identity. -/
structure Task where
  component : Nat
  forceUpdate : Bool
  priority : Nat
  startTime : Nat
  deriving DecidableEq, Repr

/-- An entry of `batchUpdates`. -/
structure Request where
  component : Nat
  forceUpdate : Bool
  priority : Nat
  deriving DecidableEq, Repr

/-- The module state of `update-queue.js`. -/
structure Scheduler where
  updateQueue : List Task
  batchUpdates : List Request
  isUpdating : Bool
  deriving DecidableEq, Repr

/-- The assignment `updateQueue[existingIndex].priority = priority` guarded by
`priority > updateQueue[existingIndex].priority`, on the first task of the component. -/
def raiseExisting (component priority : Nat) : List Task → List Task
  | [] => []
  | t :: rest =>
      if t.component = component then
        (if priority > t.priority then ⟨t.component, t.forceUpdate, priority, t.startTime⟩ else t)
          :: rest
      else t :: raiseExisting component priority rest

/-- Body of the `forEach` callback of `flushBatchUpdates`; `now` is `performance.now()`. -/
def mergeRequest (now : Nat) (updateQueue : List Task) (r : Request) : List Task :=
  if updateQueue.any (fun t => decide (t.component = r.component)) then
    raiseExisting r.component r.priority updateQueue
  else
    updateQueue ++ [⟨r.component, r.forceUpdate, r.priority, now⟩]

/-- The call `updateQueue.sort((a, b) => b.priority - a.priority)`: a stable sort. -/
def sortQueue (updateQueue : List Task) : List Task :=
  updateQueue.insertionSort (fun a b => b.priority ≤ a.priority)

/-- The merge performed by `flushBatchUpdates`: the `forEach` followed by the sort. -/
def mergeBatch (now : Nat) (updateQueue : List Task) (batchUpdates : List Request) : List Task :=
  sortQueue (batchUpdates.foldl (mergeRequest now) updateQueue)

/-- Model of `flushBatchUpdates()`. The closing statement `batchUpdates = []` assigns to a
`const` binding: it throws and leaves the batch as it was. -/
def flushBatchUpdates (now : Nat) (s : Scheduler) : Scheduler × Res Unit :=
  (⟨mergeBatch now s.updateQueue s.batchUpdates, s.batchUpdates, s.isUpdating⟩, .typeError)

/-- The `while` loop of `processUpdateQueue` entered with a `currentTask` already shifted
out of the queue (first argument: the queue left). The result is the tasks the Executor ran,
the queue left and the oracle clock. -/
def processLoop (shouldYield : Nat → Bool) :
    List Task → Task → Nat → List Task → List Task × List Task × Nat
  | [], currentTask, clock, ran =>
      if shouldYield clock then (ran, [], clock + 1)
      else (ran ++ [currentTask], [], clock + 1)
  | next :: rest, currentTask, clock, ran =>
      if shouldYield clock then (ran, next :: rest, clock + 1)
      else processLoop shouldYield rest next (clock + 1) (ran ++ [currentTask])

/-- What one run of `processUpdateQueue` did. -/
structure Processed where
  ran : List Task
  state : Scheduler
  rescheduled : Bool
  deriving Repr

/-- Model of `processUpdateQueue()`: the tasks handed to `__updateComponent` in order, the
module state afterwards, and whether it asked `requestIdleCallback` for another run. -/
def processUpdateQueue (shouldYield : Nat → Bool) (s : Scheduler) : Processed :=
  let r : List Task × List Task × Nat :=
    match s.updateQueue with
    | [] => ([], [], 0)
    | currentTask :: rest => processLoop shouldYield rest currentTask 0 []
  if r.2.1.length > 0 then ⟨r.1, ⟨r.2.1, s.batchUpdates, s.isUpdating⟩, true⟩
  else ⟨r.1, ⟨r.2.1, s.batchUpdates, false⟩, false⟩

/-! ## Specification vocabulary -/

mutual
/-- Number of node values in a tree. -/
def VNode.size : VNode → Nat
  | .absent => 1
  | .text _ => 1
  | .elem _ _ none => 1
  | .elem _ _ (some cs) => 1 + VNode.sizeList cs
/-- Number of node values in a list of trees. -/
def VNode.sizeList : List VNode → Nat
  | [] => 0
  | c :: cs => c.size + VNode.sizeList cs
end

mutual
/-- Well-formed tree: every node is a record with an attribute map and a child list. -/
def VNode.wellFormed : VNode → Bool
  | .elem _ (some _) (some cs) => VNode.wellFormedList cs
  | _ => false
/-- Every tree of the list is well formed. -/
def VNode.wellFormedList : List VNode → Bool
  | [] => true
  | c :: cs => c.wellFormed && VNode.wellFormedList cs
end

/-- No attribute value of the mapping is NaN. -/
def Props.nanFree (p : Props) : Bool :=
  p.all (fun kv => decide (kv.2 ≠ .prim .nan))

mutual
/-- No attribute value of a node of the tree is NaN. -/
def VNode.nanFree : VNode → Bool
  | .elem _ p none => Props.nanFree (p.getD [])
  | .elem _ p (some cs) => Props.nanFree (p.getD []) && VNode.nanFreeList cs
  | _ => true
/-- No attribute value of a node of a tree of the list is NaN. -/
def VNode.nanFreeList : List VNode → Bool
  | [] => true
  | c :: cs => c.nanFree && VNode.nanFreeList cs
end

/-- Well-formedness as an inductive predicate, for proofs by induction on the tree. -/
inductive WellFormed : VNode → Prop where
  | elem (type : String) (props : Props) (children : List VNode)
      (h : ∀ c ∈ children, WellFormed c) : WellFormed (.elem type (some props) (some children))

/-- The render target holds the rendering of `v` at position 0 of its child list. -/
def HoldsRendering (target : Dom) (v : VNode) : Prop :=
  ∃ d, createElement v = .ok d ∧ target.childNodes.get? 0 = some d

/-- The `UPDATE_PROPS` case of `patch` read on an attribute mapping in place of a DOM node:
a `style` entry is assigned field by field into the style object the mapping holds, every
other key (an `on*` handler included) is assigned the delta value. -/
def patchProps : Props → Props → Res Props
  | node, [] => .ok node
  | node, (key, v) :: rest =>
      if key = "style" then
        match Val.entries v, Props.read node "style" with
        | .ok [], _ => patchProps node rest
        | .ok fields, .obj ref style =>
            patchProps (Obj.set node "style" (.obj ref (assignStyle style fields))) rest
        | _, _ => .typeError
      else patchProps (Obj.set node key v) rest

/-- The two attribute mappings differ on a key: a key of the old one is not `in` the new
one, or a key of the new one other than `__proto__` holds a value that is not `===` to what
the old one reads there (its own value, the inherited member of that name, or
`undefined`). -/
def PropsDiffer (oldProps newProps : Props) : Prop :=
  (∃ k ∈ Obj.keys oldProps, Obj.hasIn newProps k = false) ∨
  (∃ k ∈ Obj.keys newProps, k ≠ "__proto__" ∧
    Val.strictEq (Props.read oldProps k) (Props.read newProps k) = false)

/-- Two children at one position that are present, unkeyed and of different kinds. -/
def Unrelated (o n : VNode) : Prop :=
  o.truthy = true ∧ n.truthy = true ∧ o.typeOf ≠ n.typeOf ∧
    o.keyOf = .prim .undefined ∧ n.keyOf = .prim .undefined

/-- A string attribute value. -/
def strVal (s : String) : Val := .prim (.str s)

/-- A node record with attributes and children. -/
def node (type : String) (props : Props) (children : List VNode) : VNode :=
  .elem type (some props) (some children)

/-- A keyed list item `li(key = k)`. -/
def keyed (k : Int) : VNode := node "li" [("key", .prim (.num k))] []

/-- A render target element with the given child nodes and no state of its own. -/
def container (children : List Dom) : Dom := .elem "body" NodeState.empty [] children

/-- A DOM element without attributes, as `createElement` renders `node tag [] []`. -/
def bare (tag : String) (children : List Dom) : Dom := .elem tag NodeState.empty [] children

/-- A `div` element whose `id` property is `"old"`, with no child. -/
def divWithIdOld : Dom := .elem "div" ⟨[("id", strVal "old")], [], none⟩ [] []

/-- The oracle that answers false to the first call and true to every later call. -/
def yieldAfterFirst : Nat → Bool := fun n => decide (1 ≤ n)

/-! ## Dispatcher and yield policy -/

/-- The object `concurrency` of `update-queue.js`. Times are readings of
`performance.now()` in milliseconds; `currentPriority` is `undefined` until
`startTransition` assigns it. -/
structure Concurrency where
  priorityThreshold : Nat
  startTime : Int
  currentPriority : Option Nat
  deriving DecidableEq, Repr

/-- The object literal `concurrency` as the module creates it. -/
def Concurrency.initial : Concurrency := ⟨2, 0, none⟩

/-- Model of `concurrency.shouldYield()`; `now` is the reading of `performance.now()`.
The comparison `undefined < 2` is false. -/
def Concurrency.shouldYield (now : Int) (c : Concurrency) : Bool :=
  decide (now - c.startTime > 5) ||
    (match c.currentPriority with
     | some p => decide (p < c.priorityThreshold)
     | none => false)

/-- Model of `startTransition(scope)` on the `concurrency` object and the rest of the
program state `σ`. The scope returns the state it leaves and whether it threw; the
`finally` block restores the priority in both cases. -/
def startTransition {σ : Type} (scope : Concurrency × σ → (Concurrency × σ) × Res Unit)
    (w : Concurrency × σ) : (Concurrency × σ) × Res Unit :=
  let prevPriority := w.1.currentPriority
  let r := scope (⟨w.1.priorityThreshold, w.1.startTime, some LowPriority⟩, w.2)
  ((⟨r.1.1.priorityThreshold, r.1.1.startTime, prevPriority⟩, r.1.2), r.2)

/-- Model of `enqueueUpdate(component, forceUpdate, priority)`: the module state after the
call, the tasks handed to the Executor during the call, and the outcome of the call.
`flushBatchUpdates` ends by throwing, so the call of `processUpdateQueue` that follows it
in the source is not reached. -/
def enqueueUpdate (now : Nat) (shouldYield : Nat → Bool) (s : Scheduler) (r : Request) :
    Scheduler × List Task × Res Unit :=
  let batch := s.batchUpdates ++ [r]
  if s.isUpdating then (⟨s.updateQueue, batch, true⟩, [], .ok ())
  else
    match flushBatchUpdates now ⟨s.updateQueue, batch, true⟩ with
    | (s1, .ok _) => ((processUpdateQueue shouldYield s1).state, (processUpdateQueue shouldYield s1).ran, .ok ())
    | (s1, .typeError) => (s1, [], .typeError)
    | (s1, .outOfFuel) => (s1, [], .outOfFuel)

/-- The module state when the module has just been loaded. -/
def Scheduler.initial : Scheduler := ⟨[], [], false⟩

/-- States of the update queue reachable from the initial state by calls of
`enqueueUpdate` and runs of `processUpdateQueue`. The step `shift` is a run of
`processUpdateQueue` observed after one `updateQueue.shift()`, where the Executor can call
`enqueueUpdate` again. -/
inductive Reachable : Scheduler → Prop where
  | initial : Reachable Scheduler.initial
  | enqueue (s : Scheduler) (now : Nat) (shouldYield : Nat → Bool) (r : Request) :
      Reachable s → Reachable (enqueueUpdate now shouldYield s r).1
  | process (s : Scheduler) (shouldYield : Nat → Bool) :
      Reachable s → Reachable (processUpdateQueue shouldYield s).state
  | shift (s : Scheduler) :
      Reachable s → Reachable ⟨s.updateQueue.tail, s.batchUpdates, s.isUpdating⟩

/-- The chain of idle callbacks scheduled by `patch`: each run calls `patch` on the
operation list the previous call handed to `requestIdleCallback`. -/
def idleRuns : Nat → Dom × Option (List Patch) → Dom × Option (List Patch)
  | 0, r => r
  | _ + 1, (dom, none) => (dom, none)
  | n + 1, (dom, some patches) => idleRuns n (patch dom patches)

/-! ## Component -/

/-- The object spread `{...a, ...b}`. -/
def Obj.spread {α : Type} (a b : Obj α) : Obj α :=
  b.foldl (fun acc kv => Obj.set acc kv.1 kv.2) a

/-- The fields of a `Component` instance that the update cycle reads and writes.
`null` is `none`; a callback is named by its identity. -/
structure Component where
  props : Obj Val
  state : Obj Val
  pendingState : Option (Obj Val)
  pendingProps : Option (Obj Val)
  pendingCallback : Option Nat
  hasError : Bool
  internalInstance : VNode

/-- The constructor `new Component(props)`. -/
def Component.create (props : Obj Val) : Component :=
  ⟨props, [], none, none, none, false, .absent⟩

/-- Model of `shallowEqual(objA, objB)` on two objects. -/
def shallowEqual (objA objB : Obj Val) : Bool :=
  decide (objA.length = objB.length) &&
    objA.all (fun kv => Obj.has objB kv.1 && Val.sameValue kv.2 (Props.read objB kv.1))

/-- The method `shouldComponentUpdate(nextProps, nextState)` of the base class. -/
def Component.shouldComponentUpdate (c : Component) (nextProps nextState : Obj Val) : Bool :=
  !shallowEqual c.props nextProps || !shallowEqual c.state nextState

/-- The method `componentDidCatch(error, info)` of the base class (the console output is
not modelled). -/
def Component.componentDidCatch (c : Component) : Component :=
  ⟨c.props, c.state, c.pendingState, c.pendingProps, c.pendingCallback, true,
    c.internalInstance⟩

/-- The argument of `setState`: an object, or a function of the state and the props. -/
inductive PartialState where
  | object (p : Obj Val)
  | updater (f : Obj Val → Obj Val → Obj Val)

/-- The statements of `setState` that come before `enqueueUpdate(this)`. -/
def Component.stagePartialState (c : Component) (partialState : PartialState)
    (callback : Option Nat) : Component :=
  let p := match partialState with
    | .object p => p
    | .updater f => f c.state c.props
  ⟨c.props, c.state, some (Obj.spread c.state p), c.pendingProps, callback, c.hasError,
    c.internalInstance⟩

/-- The first part of `__updateComponent(forceUpdate)`, down to the commit of props and
state: `none` when the call returns early (error flag set, or the gate
`shouldComponentUpdate` refuses an update that is not forced), otherwise the instance after
the commit together with `prevProps` and `prevState`. The gate is a parameter because a
subclass can override it. -/
def Component.commitUpdate (gate : Component → Obj Val → Obj Val → Bool) (c : Component)
    (forceUpdate : Bool) : Option (Component × Obj Val × Obj Val) :=
  if c.hasError then none
  else if !forceUpdate && !gate c (c.pendingProps.getD c.props) (c.pendingState.getD c.state)
  then none
  else
    some (⟨c.pendingProps.getD c.props, c.pendingState.getD c.state, none, none,
      c.pendingCallback, c.hasError, c.internalInstance⟩, c.props, c.state)

/-- Model of `__updateComponent(forceUpdate)`. The statements after the commit (snapshot,
`render`, `diff`, `patch`, `componentDidUpdate`, effects, callback) call methods a subclass
supplies; they are the parameter `rest`, applied to the committed instance, `prevProps`
and `prevState`. -/
def Component.updateComponent (gate : Component → Obj Val → Obj Val → Bool)
    (rest : Component → Obj Val → Obj Val → Component × Res Unit) (c : Component)
    (forceUpdate : Bool) : Component × Res Unit :=
  match c.commitUpdate gate forceUpdate with
  | none => (c, .ok ())
  | some (committed, prevProps, prevState) => rest committed prevProps prevState

/-- One component instance, named `self` in the queue, together with the module state of
the update queue and the tasks handed to the Executor so far. -/
structure World where
  scheduler : Scheduler
  component : Component
  ran : List Task

/-- Model of `setState(partialState, callback)` of the instance `self`. The Executor is not
reached from `enqueueUpdate`, so the instance is as the first statements leave it. -/
def World.setState (now : Nat) (shouldYield : Nat → Bool) (self : Nat) (w : World)
    (partialState : PartialState) (callback : Option Nat) : World × Res Unit :=
  let r := enqueueUpdate now shouldYield w.scheduler ⟨self, false, NormalPriority⟩
  (⟨r.1, w.component.stagePartialState partialState callback, w.ran ++ r.2.1⟩, r.2.2)

/-- Model of `forceUpdate(callback)` of the instance `self`. -/
def World.forceUpdate (now : Nat) (shouldYield : Nat → Bool) (self : Nat) (w : World)
    (callback : Option Nat) : World × Res Unit :=
  let c := w.component
  let r := enqueueUpdate now shouldYield w.scheduler ⟨self, true, NormalPriority⟩
  (⟨r.1, ⟨c.props, c.state, c.pendingState, c.pendingProps, callback, c.hasError,
    c.internalInstance⟩, w.ran ++ r.2.1⟩, r.2.2)

/-- Model of `__updateProps(newProps)` of the instance `self`. -/
def World.updateProps (now : Nat) (shouldYield : Nat → Bool) (self : Nat) (w : World)
    (newProps : Obj Val) : World × Res Unit :=
  let c := w.component
  let r := enqueueUpdate now shouldYield w.scheduler ⟨self, false, NormalPriority⟩
  (⟨r.1, ⟨c.props, c.state, c.pendingState, some newProps, c.pendingCallback, c.hasError,
    c.internalInstance⟩, w.ran ++ r.2.1⟩, r.2.2)

/-- A sequence of `setState` calls made one after the other in one synchronous turn, a
thrown exception being caught by the caller between two calls. -/
def World.setStates (now : Nat) (shouldYield : Nat → Bool) (self : Nat) :
    World → List PartialState → World
  | w, [] => w
  | w, p :: rest =>
      World.setStates now shouldYield self (World.setState now shouldYield self w p none).1 rest

/-- The world in which the instance `c` exists and the update queue is idle. -/
def World.idle (c : Component) : World := ⟨Scheduler.initial, c, []⟩

/-- The constructor `new Suspense(props)`: the constructor of `Component`, then
`this.state = { hasError: false }`. -/
def Suspense.create (props : Obj Val) : Component :=
  ⟨props, [("hasError", .prim (.bool false))], none, none, none, false, .absent⟩

/-- Model of `componentDidCatch(error)` of `Suspense`, which overrides the method of
`Component`, on the instance `self`. For a Promise the scope given to `startTransition`
only registers a continuation on the promise, which runs in a later turn, and
`setState({ hasError: true })` follows; any other error is thrown again. Neither path
writes `__hasError`. -/
def Suspense.componentDidCatch (now : Nat) (shouldYield : Nat → Bool) (self : Nat) (w : World)
    (errorIsPromise : Bool) : World × Res Unit :=
  if errorIsPromise then
    World.setState now shouldYield self w (.object [("hasError", .prim (.bool true))]) none
  else (w, .typeError)

/-! ## Hooks

The functions of `HooksDispatcher` read `this.__hookIndex` and `this.__currentInstance`.
`useState`, `useReducer`, `useEffect` and `useLayoutEffect` below are these functions for a
receiver that is the rendering instance itself, the object on which the `render` wrapper
sets `__currentInstance` and resets `__hookIndex`. `Component.useState` is the call site of
the source, where the receiver is the dispatcher object. -/

/-- An action queued by the setter of a state hook: a function of the state, or any other
value. -/
inductive Action where
  | update (f : Val → Val)
  | replace (v : Val)

/-- An effect object `{ setup, deps, cleanup }`. Functions are named by identity, `deps`
is an array of values or `undefined`, `cleanup` is `none` when `null` or `undefined`. -/
structure Effect where
  setup : Nat
  deps : Option (List Val)
  cleanup : Option Nat
  deriving DecidableEq, Repr

/-- A slot of `__hooks`: the record `{ state, reducer, queue }` of a state hook (`reducer`
absent for `useState`), or a reference to an effect object. -/
inductive Hook where
  | stateful (state : Val) (reducer : Option (Val → Action → Val)) (queue : List Action)
  | effect (address : Nat)

/-- The hook fields of a component instance: `__hookIndex`, `__hooks`, the effect objects
by address, and the arrays `__pendingEffects` and `__layoutEffects` of references to
them. -/
structure HookStore where
  hookIndex : Nat
  hooks : List (Option Hook)
  effects : List Effect
  pendingEffects : List Nat
  layoutEffects : List Nat

/-- The hook fields set by the constructor of `Component`. -/
def HookStore.empty : HookStore := ⟨0, [], [], [], []⟩

/-- The array read `arr[i]`, `none` for `undefined`. -/
def slotAt {α : Type} (arr : List (Option α)) (i : Nat) : Option α :=
  (arr.getD i none)

/-- The array write `arr[i] = x`, which extends the array with holes when needed. -/
def slotSet {α : Type} (arr : List (Option α)) (i : Nat) (x : α) : List (Option α) :=
  if i < arr.length then arr.set i (some x)
  else arr ++ List.replicate (i - arr.length) none ++ [some x]

/-- The reducer callback of `useState`:
`typeof action === "function" ? action(state) : action`. -/
def applyAction (state : Val) : Action → Val
  | .update f => f state
  | .replace v => v

/-- Model of `HooksDispatcher.useState(initialState)`: the state returned and the hook
fields after the call. A function initialiser is represented by the value it returns.
Spreading the missing `queue` of a slot of another kind throws. -/
def useState (h : HookStore) (initialState : Val) : Res Val × HookStore :=
  let hookIndex := h.hookIndex
  let hooks : List (Option Hook) :=
    match slotAt h.hooks hookIndex with
    | none => slotSet h.hooks hookIndex (Hook.stateful initialState none [])
    | some _ => h.hooks
  match slotAt hooks hookIndex with
  | some (.stateful state reducer queue) =>
      let newState := queue.foldl applyAction state
      (.ok newState,
        ⟨hookIndex + 1, slotSet hooks hookIndex (.stateful newState reducer []), h.effects,
          h.pendingEffects, h.layoutEffects⟩)
  | _ => (.typeError, ⟨hookIndex + 1, hooks, h.effects, h.pendingEffects, h.layoutEffects⟩)

/-- Model of `HooksDispatcher.useReducer(reducer, initialArg, init)`; `initialState` is
`init ? init(initialArg) : initialArg`. The fold calls the reducer stored in the slot;
calling the missing reducer of a `useState` slot throws. -/
def useReducer (h : HookStore) (reducer : Val → Action → Val) (initialState : Val) :
    Res Val × HookStore :=
  let hookIndex := h.hookIndex
  let hooks : List (Option Hook) :=
    match slotAt h.hooks hookIndex with
    | none => slotSet h.hooks hookIndex (Hook.stateful initialState (some reducer) [])
    | some _ => h.hooks
  match slotAt hooks hookIndex with
  | some (.stateful state (some stored) queue) =>
      let newState := queue.foldl stored state
      (.ok newState,
        ⟨hookIndex + 1, slotSet hooks hookIndex (.stateful newState (some stored) []),
          h.effects, h.pendingEffects, h.layoutEffects⟩)
  | some (.stateful state none []) =>
      (.ok state,
        ⟨hookIndex + 1, slotSet hooks hookIndex (.stateful state none []), h.effects,
          h.pendingEffects, h.layoutEffects⟩)
  | some (.stateful state none (_ :: _)) =>
      (.typeError,
        ⟨hookIndex + 1, slotSet hooks hookIndex (.stateful state none []), h.effects,
          h.pendingEffects, h.layoutEffects⟩)
  | _ => (.typeError, ⟨hookIndex + 1, hooks, h.effects, h.pendingEffects, h.layoutEffects⟩)

/-- The object bound to `this` in a call of a function of `HooksDispatcher`. -/
inductive Receiver where
  | renderingInstance
  | dispatcherObject

/-- Model of the call `HooksDispatcher.useState.call(receiver, initialState)` during a
render of the instance whose hook fields are `h`. With the instance as receiver it is
`useState`. The object `HooksDispatcher` has no `__currentInstance`: `component` is
`undefined`, the read `component.__hooks` throws, and no hook field of the instance has
been touched (`this.__hookIndex++` wrote to the dispatcher object). -/
def HooksDispatcher.useState (receiver : Receiver) (h : HookStore) (initialState : Val) :
    Res Val × HookStore :=
  match receiver with
  | .renderingInstance => MiniReact.useState h initialState
  | .dispatcherObject => (.typeError, h)

/-- Model of `Component.prototype.useState(initialState)`, whose body is
`return this.__currentDispatcher.useState(initialState)`: a method call on the dispatcher
object, which is therefore the receiver. `dispatcherSet` tells whether
`__currentDispatcher` has been assigned; reading `useState` of `undefined` throws. -/
def Component.useState (dispatcherSet : Bool) (h : HookStore) (initialState : Val) :
    Res Val × HookStore :=
  if dispatcherSet then HooksDispatcher.useState .dispatcherObject h initialState
  else (.typeError, h)

/-- The statement `hook.queue.push(action)` of the setter returned by the hook of slot
`slot`; the setter then calls `enqueueUpdate(component)`. -/
def pushAction (h : HookStore) (slot : Nat) (action : Action) : HookStore :=
  match slotAt h.hooks slot with
  | some (.stateful state reducer queue) =>
      ⟨h.hookIndex, slotSet h.hooks slot (.stateful state reducer (queue ++ [action])),
        h.effects, h.pendingEffects, h.layoutEffects⟩
  | _ => h

/-- The statement `this.__hookIndex = 0` run by the `render` wrapper after each render. -/
def resetHookIndex (h : HookStore) : HookStore :=
  ⟨0, h.hooks, h.effects, h.pendingEffects, h.layoutEffects⟩

/-- The hook fields when a render reaches the hook call of slot `i`: `__hookIndex` is
`i`. -/
def HookStore.atIndex (h : HookStore) (i : Nat) : HookStore :=
  ⟨i, h.hooks, h.effects, h.pendingEffects, h.layoutEffects⟩

/-- A call of a user function observed during an update cycle. -/
inductive Call where
  | setup (id : Nat)
  | cleanup (id : Nat)
  deriving DecidableEq, Repr

/-- Model of `shallowEqual(prevEffect.deps, deps)` on dependency arrays. -/
def depsEqual : Option (List Val) → Option (List Val) → Bool
  | none, none => true
  | some a, some b =>
      decide (a.length = b.length) && (List.zipWith Val.sameValue a b).all id
  | _, _ => false

/-- The effect object at an address. -/
def HookStore.effectAt (h : HookStore) (address : Nat) : Effect :=
  h.effects.getD address ⟨0, none, none⟩

/-- The dependency array read as `prevEffect.deps` on a slot. -/
def HookStore.depsOf (h : HookStore) : Hook → Option (List Val)
  | .effect address => (h.effectAt address).deps
  | .stateful _ _ _ => none

/-- Model of `HooksDispatcher.useEffect(setup, deps)`: the hook fields after the call and
the user functions it called. `run s` is the value the function `s` returns when called.
A `cleanup` assigned to a slot of another kind is not kept. -/
def useEffect (run : Nat → Option Nat) (h : HookStore) (setup : Nat)
    (deps : Option (List Val)) : HookStore × List Call :=
  let hookIndex := h.hookIndex
  match slotAt h.hooks hookIndex with
  | none =>
      (⟨hookIndex + 1, slotSet h.hooks hookIndex (.effect h.effects.length),
        h.effects ++ [⟨setup, deps, none⟩], h.pendingEffects ++ [h.effects.length],
        h.layoutEffects⟩, [])
  | some prevEffect =>
      if depsEqual (h.depsOf prevEffect) deps then
        (⟨hookIndex + 1, h.hooks, h.effects, h.pendingEffects, h.layoutEffects⟩, [])
      else
        match prevEffect with
        | .effect address =>
            (⟨hookIndex + 1, h.hooks,
              h.effects.set address
                ⟨(h.effectAt address).setup, (h.effectAt address).deps, run setup⟩,
              h.pendingEffects, h.layoutEffects⟩, [.setup setup])
        | .stateful _ _ _ =>
            (⟨hookIndex + 1, h.hooks, h.effects, h.pendingEffects, h.layoutEffects⟩,
              [.setup setup])

/-- The cleanup function read as `prevEffect.cleanup` on a slot. -/
def HookStore.cleanupOf (h : HookStore) : Hook → Option Nat
  | .effect address => (h.effectAt address).cleanup
  | .stateful _ _ _ => none

/-- Model of `HooksDispatcher.useLayoutEffect(setup, deps)`: the hook fields after the call
and the user functions it called. -/
def useLayoutEffect (h : HookStore) (setup : Nat) (deps : Option (List Val)) :
    HookStore × List Call :=
  let hookIndex := h.hookIndex
  match slotAt h.hooks hookIndex with
  | none =>
      (⟨hookIndex + 1, slotSet h.hooks hookIndex (.effect h.effects.length),
        h.effects ++ [⟨setup, deps, none⟩], h.pendingEffects,
        h.layoutEffects ++ [h.effects.length]⟩, [])
  | some prevEffect =>
      if depsEqual (h.depsOf prevEffect) deps then
        (⟨hookIndex + 1, h.hooks, h.effects, h.pendingEffects, h.layoutEffects⟩, [])
      else
        (⟨hookIndex + 1, slotSet h.hooks hookIndex (.effect h.effects.length),
          h.effects ++ [⟨setup, deps, none⟩], h.pendingEffects,
          h.layoutEffects ++ [h.effects.length]⟩,
          match h.cleanupOf prevEffect with
          | some cleanup => [.cleanup cleanup]
          | none => [])

/-- The callback `effect => { if (effect.cleanup) effect.cleanup(); effect.cleanup =
effect.setup(); }` applied to the effect objects of a list of references. -/
def runEffects (run : Nat → Option Nat) : List Nat → List Effect → List Call →
    List Effect × List Call
  | [], effects, calls => (effects, calls)
  | address :: rest, effects, calls =>
      let e := effects.getD address ⟨0, none, none⟩
      let before := match e.cleanup with
        | some cleanup => [Call.cleanup cleanup]
        | none => []
      runEffects run rest (effects.set address ⟨e.setup, e.deps, run e.setup⟩)
        (calls ++ before ++ [.setup e.setup])

/-- Model of `__flushEffects()`: the hook fields after the call, the user functions it
called, and whether it set the timer that runs the pending effects. -/
def flushEffects (run : Nat → Option Nat) (h : HookStore) : HookStore × List Call × Bool :=
  let r := runEffects run h.layoutEffects h.effects []
  (⟨h.hookIndex, h.hooks, r.1, h.pendingEffects, h.layoutEffects⟩, r.2,
    decide (h.pendingEffects.length > 0))

/-- The timer callback set by `__flushEffects()`: it runs the pending effects and empties
`__pendingEffects`. -/
def runPendingEffects (run : Nat → Option Nat) (h : HookStore) : HookStore × List Call :=
  let r := runEffects run h.pendingEffects h.effects []
  (⟨h.hookIndex, h.hooks, r.1, [], h.layoutEffects⟩, r.2)

/-- A setup function that returns the cleanup function `s + 10` when called. -/
def cleanupPlusTen : Nat → Option Nat := fun s => some (s + 10)

/-- The function action `n => n + 1` on numbers. -/
def addOne : Val → Val
  | .prim (.num n) => .prim (.num (n + 1))
  | v => v

/-- A reducer that adds the number carried by the action to the state. -/
def sumReducer : Val → Action → Val
  | .prim (.num n), .replace (.prim (.num k)) => .prim (.num (n + k))
  | v, _ => v

/-- Hook fields after a render that called `useState(0)` and then `useReducer` with
`sumReducer` and the initial state 10. -/
def twoStateHooks : HookStore :=
  ⟨0, [some (.stateful (.prim (.num 0)) none []),
    some (.stateful (.prim (.num 10)) (some sumReducer) [])], [], [], []⟩

/-- Hook fields after a first update cycle whose render called
`useLayoutEffect(setup1, [1])`: the render, then `__flushEffects()`. -/
def afterLayoutCycle : HookStore :=
  (flushEffects cleanupPlusTen
    (useLayoutEffect HookStore.empty 1 (some [.prim (.num 1)])).1).1

/-- Hook fields after a first update cycle whose render called `useEffect(setup1, [1])`:
the render, `__flushEffects()`, then the timer callback that runs the pending effects. -/
def afterEffectCycle : HookStore :=
  (runPendingEffects cleanupPlusTen
    (flushEffects cleanupPlusTen
      (useEffect cleanupPlusTen HookStore.empty 1 (some [.prim (.num 1)])).1).1).1

/-- An operation performed on a component instance after it was created. -/
inductive Op where
  | setState (partialState : PartialState) (callback : Option Nat)
  | forceUpdate (callback : Option Nat)
  | updateProps (newProps : Obj Val)
  | updateComponent (forceUpdate : Bool)

/-- The world after one operation on the instance `self`; exceptions are caught by the
caller. -/
def World.step (now : Nat) (shouldYield : Nat → Bool) (self : Nat)
    (gate : Component → Obj Val → Obj Val → Bool)
    (rest : Component → Obj Val → Obj Val → Component × Res Unit) (w : World) : Op → World
  | .setState p callback => (World.setState now shouldYield self w p callback).1
  | .forceUpdate callback => (World.forceUpdate now shouldYield self w callback).1
  | .updateProps newProps => (World.updateProps now shouldYield self w newProps).1
  | .updateComponent forceUpdate =>
      ⟨w.scheduler, (w.component.updateComponent gate rest forceUpdate).1, w.ran⟩

/-! ## Vocabulary of the frame, ordering and termination claims -/

/-- The operation is a `MOVE`. -/
def Patch.isMove : Patch → Bool
  | .MOVE _ _ _ => true
  | _ => false

mutual
/-- Every value of the tree is a node record: no child is `null`, `undefined` or a
string. The `props` and `children` of a record may be missing. -/
def VNode.allRecords : VNode → Bool
  | .elem _ _ none => true
  | .elem _ _ (some cs) => VNode.allRecordsList cs
  | _ => false
/-- Every tree of the list consists of node records. -/
def VNode.allRecordsList : List VNode → Bool
  | [] => true
  | c :: cs => c.allRecords && VNode.allRecordsList cs
end

/-- The `forEach` of `flushBatchUpdates` when every entry of the batch is paired with the
reading of `performance.now()` that its callback stores if it pushes a new task. -/
def mergeTimed (updateQueue : List Task) (batch : List (Request × Nat)) : List Task :=
  batch.foldl (fun q rt => mergeRequest rt.2 q rt.1) updateQueue

/-- The merge performed by `flushBatchUpdates` with one clock reading per batch entry: the
`forEach` followed by the sort. -/
def mergeBatchTimed (updateQueue : List Task) (batch : List (Request × Nat)) : List Task :=
  sortQueue (mergeTimed updateQueue batch)

/-- The rendering of the keyed list item `li(key = k)`. -/
def keyedDom (k : Int) : Dom := .elem "li" ⟨[("key", .prim (.num k))], [], none⟩ [] []


/-- The run ended, in a result that satisfies `P` or in an exception; it did not stop for
lack of fuel. -/
def Res.EndsWith {α : Type} (P : α → Prop) : Res α → Prop
  | .ok a => P a
  | .typeError => True
  | .outOfFuel => False

/-! ## Lemmas -/

theorem Obj.has_iff_mem_keys {α : Type} (o : Obj α) (k : String) :
    Obj.has o k = true ↔ k ∈ Obj.keys o := by
  induction o with
  | nil => simp [Obj.has, Obj.keys, List.lookup]
  | cons hd tl ih =>
    obtain ⟨k0, v0⟩ := hd
    by_cases h : k = k0
    · subst h
      simp [Obj.has, Obj.keys, List.lookup]
    · have hb : (k == k0) = false := by simpa using h
      simp only [Obj.has, Obj.keys, List.lookup, hb, List.map_cons, List.mem_cons, h, false_or] at ih ⊢
      exact ih

theorem Obj.set_ne_nil {α : Type} (o : Obj α) (k : String) (v : α) : Obj.set o k v ≠ [] := by
  cases o with
  | nil => simp [Obj.set]
  | cons hd tl =>
    obtain ⟨k0, v0⟩ := hd
    simp only [Obj.set]
    split <;> simp

theorem Obj.get?_set {α : Type} (o : Obj α) (k k1 : String) (v : α) :
    Obj.get? (Obj.set o k v) k1 = if k1 = k then some v else Obj.get? o k1 := by
  induction o with
  | nil =>
    by_cases h : k1 = k
    · subst h; simp [Obj.set, Obj.get?, List.lookup]
    · have hb : (k1 == k) = false := by simpa using h
      simp [Obj.set, Obj.get?, List.lookup, hb, h]
  | cons hd tl ih =>
    obtain ⟨k0, v0⟩ := hd
    simp only [Obj.set]
    by_cases h0 : k0 = k
    · subst h0
      by_cases h : k1 = k0
      · subst h; simp [Obj.get?, List.lookup]
      · have hb : (k1 == k0) = false := by simpa using h
        simp [Obj.get?, List.lookup, hb, h]
    · simp only [h0, if_false]
      by_cases h : k1 = k0
      · subst h
        have : ¬ k1 = k := h0
        simp [Obj.get?, List.lookup, this]
      · have hb : (k1 == k0) = false := by simpa using h
        simp only [Obj.get?, List.lookup, hb] at ih ⊢
        exact ih

theorem Obj.mem_keys_set {α : Type} (o : Obj α) (k k1 : String) (v : α) :
    k1 ∈ Obj.keys (Obj.set o k v) ↔ k1 = k ∨ k1 ∈ Obj.keys o := by
  rw [← Obj.has_iff_mem_keys, ← Obj.has_iff_mem_keys]
  simp only [Obj.has, ← Obj.get?.eq_1, Obj.get?_set]
  by_cases h : k1 = k <;> simp [h]

theorem Props.read_set (o : Props) (k k1 : String) (v : Val) :
    Props.read (Obj.set o k v) k1 = if k1 = k then v else Props.read o k1 := by
  simp only [Props.read, Obj.get?_set]
  by_cases h : k1 = k <;> simp [h]

theorem Val.strictEq_self (v : Val) (h : v ≠ .prim .nan) : Val.strictEq v v = true := by
  cases v with
  | prim p =>
    have hp : p ≠ .nan := fun hp => h (by rw [hp])
    simp [Val.strictEq, Prim.strictEq, hp]
  | fn r => simp [Val.strictEq]
  | obj r f => simp [Val.strictEq]
  | builtin n => simp [Val.strictEq]

theorem Obj.hasIn_of_has {α : Type} (o : Obj α) (k : String) (h : Obj.has o k = true) :
    Obj.hasIn o k = true := by
  simp [Obj.hasIn, h]

theorem ne_proto_of_not_hasIn {α : Type} (o : Obj α) (k : String)
    (h : Obj.hasIn o k = false) : k ≠ "__proto__" := by
  intro hk
  subst hk
  simp only [Obj.hasIn, Bool.or_eq_false_iff] at h
  exact absurd h.2 (by decide)

theorem Obj.assign_of_ne {α : Type} (o : Obj α) (k : String) (v : α) (h : k ≠ "__proto__") :
    Obj.assign o k v = Obj.set o k v := by
  simp [Obj.assign, h]

theorem Obj.assign_proto {α : Type} (o : Obj α) (v : α) : Obj.assign o "__proto__" v = o := by
  simp [Obj.assign]

theorem Res.bind_eq_ok {α β : Type} {r : Res α} {f : α → Res β} {b : β}
    (h : Res.bind r f = .ok b) : ∃ a, r = .ok a ∧ f a = .ok b := by
  cases r with
  | ok a => exact ⟨a, rfl, h⟩
  | typeError => simp [Res.bind] at h
  | outOfFuel => simp [Res.bind] at h

theorem diffPropsRemoved_ne_nil (newProps : Props) (ks : List String) (acc : Props)
    (h : acc ≠ [] ∨ ∃ k ∈ ks, Obj.hasIn newProps k = false) :
    diffPropsRemoved newProps ks acc ≠ [] := by
  induction ks generalizing acc with
  | nil =>
    rcases h with h | ⟨k, hk, _⟩
    · simpa [diffPropsRemoved] using h
    · simp at hk
  | cons key rest ih =>
    simp only [diffPropsRemoved]
    by_cases hp : Obj.hasIn newProps key = true
    · simp only [hp, if_true]
      apply ih
      rcases h with h | ⟨k, hk, hk2⟩
      · exact Or.inl h
      · rcases List.mem_cons.mp hk with rfl | hk
        · rw [hp] at hk2; cases hk2
        · exact Or.inr ⟨k, hk, hk2⟩
    · simp only [hp]
      apply ih
      have hne := ne_proto_of_not_hasIn newProps key (by simpa using hp)
      rw [Obj.assign_of_ne _ _ _ hne]
      exact Or.inl (Obj.set_ne_nil _ _ _)

theorem diffPropsChanged_ne_nil (oldProps newProps : Props) (ks : List String) (acc d : Props)
    (hd : diffPropsChanged oldProps newProps ks acc = .ok d)
    (h : acc ≠ [] ∨
      ∃ k ∈ ks, k ≠ "__proto__" ∧
        Val.strictEq (Props.read oldProps k) (Props.read newProps k) = false) :
    d ≠ [] := by
  induction ks generalizing acc with
  | nil =>
    rcases h with h | ⟨k, hk, _⟩
    · simp only [diffPropsChanged, Res.ok.injEq] at hd
      rw [← hd]; exact h
    · simp at hk
  | cons key rest ih =>
    simp only [diffPropsChanged] at hd
    by_cases he : Val.strictEq (Props.read oldProps key) (Props.read newProps key) = true
    · simp only [he, if_true] at hd
      apply ih acc hd
      rcases h with h | ⟨k, hk, hk1, hk2⟩
      · exact Or.inl h
      · rcases List.mem_cons.mp hk with rfl | hk
        · rw [he] at hk2; cases hk2
        · exact Or.inr ⟨k, hk, hk1, hk2⟩
    · simp only [he] at hd
      by_cases hs : key = "style"
      · simp only [hs, if_true] at hd
        obtain ⟨sp, _, hsp⟩ := Res.bind_eq_ok hd
        exact ih _ hsp (Or.inl (Obj.set_ne_nil _ _ _))
      · simp only [hs] at hd
        by_cases hpr : key = "__proto__"
        · subst hpr
          rw [Obj.assign_proto] at hd
          apply ih acc hd
          rcases h with h | ⟨k, hk, hk1, hk2⟩
          · exact Or.inl h
          · rcases List.mem_cons.mp hk with rfl | hk
            · exact absurd rfl hk1
            · exact Or.inr ⟨k, hk, hk1, hk2⟩
        · rw [Obj.assign_of_ne _ _ _ hpr] at hd
          exact ih _ hd (Or.inl (Obj.set_ne_nil _ _ _))

theorem diffProps_ne_nil_of_differ (oldProps newProps d : Props)
    (hd : diffProps (some oldProps) (some newProps) = .ok d)
    (h : PropsDiffer oldProps newProps) : d ≠ [] := by
  simp only [diffProps] at hd
  apply diffPropsChanged_ne_nil _ _ _ _ _ hd
  rcases h with h | h
  · exact Or.inl (diffPropsRemoved_ne_nil _ _ _ (Or.inr h))
  · exact Or.inr h

theorem diffChildren_nil (recur : Nat → VNode → VNode → Res (List Patch × VNode × Nat))
    (fuel clock : Nat) :
    diffChildren recur (fuel + 1) clock (some []) (some []) = .ok ([], [], clock) := by
  simp [diffChildren, buildKeyIndexMap, diffChildrenLoop]

theorem diffPropsRemoved_all_present (newProps : Props) (ks : List String) (acc : Props)
    (h : ∀ k ∈ ks, Obj.hasIn newProps k = true) : diffPropsRemoved newProps ks acc = acc := by
  induction ks generalizing acc with
  | nil => rfl
  | cons key rest ih =>
    simp only [diffPropsRemoved, h key (List.mem_cons_self _ _), if_true]
    exact ih acc (fun k hk => h k (List.mem_cons_of_mem _ hk))

theorem diffPropsChanged_all_equal (oldProps newProps : Props) (ks : List String) (acc : Props)
    (h : ∀ k ∈ ks, k = "__proto__" ∨
      Val.strictEq (Props.read oldProps k) (Props.read newProps k) = true) :
    diffPropsChanged oldProps newProps ks acc = .ok acc := by
  induction ks generalizing acc with
  | nil => rfl
  | cons key rest ih =>
    have hrest := ih acc (fun k hk => h k (List.mem_cons_of_mem _ hk))
    by_cases he : Val.strictEq (Props.read oldProps key) (Props.read newProps key) = true
    · simp only [diffPropsChanged, he, if_true]
      exact hrest
    · rcases h key (List.mem_cons_self _ _) with hk | hk
      · subst hk
        have hs : ¬ ("__proto__" = "style") := by decide
        simp only [diffPropsChanged, he, hs, if_false, Obj.assign_proto]
        exact hrest
      · exact absurd hk he

theorem Obj.mem_set {α : Type} (o : Obj α) (k : String) (v : α) (kv : String × α)
    (h : kv ∈ Obj.set o k v) : kv = (k, v) ∨ kv ∈ o := by
  induction o with
  | nil => simpa [Obj.set] using h
  | cons hd tl ih =>
    obtain ⟨k0, v0⟩ := hd
    simp only [Obj.set] at h
    by_cases h0 : k0 = k
    · simp only [h0, if_true, List.mem_cons] at h
      rcases h with h | h
      · exact Or.inl h
      · exact Or.inr (List.mem_cons_of_mem _ h)
    · simp only [h0, if_false, List.mem_cons] at h
      rcases h with h | h
      · exact Or.inr (by rw [h]; exact List.mem_cons_self _ _)
      · rcases ih h with h | h
        · exact Or.inl h
        · exact Or.inr (List.mem_cons_of_mem _ h)

/-- Shape of the delta when no style delta is computed: every entry carries the new value
of a key other than `style`, and every key other than `__proto__` whose value differs is
present. -/
theorem diffPropsChanged_plain (oldProps newProps : Props) (ks : List String) (acc : Props)
    (hks : ∀ k ∈ ks,
      Val.strictEq (Props.read oldProps k) (Props.read newProps k) = false → k ≠ "style") :
    ∃ d, diffPropsChanged oldProps newProps ks acc = .ok d ∧
      (∀ kv ∈ d, kv ∈ acc ∨ (kv.1 ∈ ks ∧ kv.1 ≠ "style" ∧ kv.2 = Props.read newProps kv.1)) ∧
      (∀ k ∈ ks, k ≠ "__proto__" →
        Val.strictEq (Props.read oldProps k) (Props.read newProps k) = false →
        k ∈ Obj.keys d) ∧
      (∀ k ∈ Obj.keys acc, k ∈ Obj.keys d) := by
  induction ks generalizing acc with
  | nil =>
    exact ⟨acc, rfl, fun kv h => Or.inl h, fun k hk => by simp at hk, fun k hk => hk⟩
  | cons key rest ih =>
    have hrest : ∀ k ∈ rest,
        Val.strictEq (Props.read oldProps k) (Props.read newProps k) = false → k ≠ "style" :=
      fun k hk => hks k (List.mem_cons_of_mem _ hk)
    by_cases he : Val.strictEq (Props.read oldProps key) (Props.read newProps key) = true
    · obtain ⟨d, hd, ha, hb, hc⟩ := ih acc hrest
      refine ⟨d, ?_, ?_, ?_, hc⟩
      · simp only [diffPropsChanged, he, if_true]; exact hd
      · intro kv hkv
        rcases ha kv hkv with h | ⟨h1, h2, h3⟩
        · exact Or.inl h
        · exact Or.inr ⟨List.mem_cons_of_mem _ h1, h2, h3⟩
      · intro k hk hpr hne
        rcases List.mem_cons.mp hk with rfl | hk
        · rw [he] at hne; cases hne
        · exact hb k hk hpr hne
    · have he2 : Val.strictEq (Props.read oldProps key) (Props.read newProps key) = false := by
        simpa using he
      have hs : key ≠ "style" := hks key (List.mem_cons_self _ _) he2
      by_cases hpr : key = "__proto__"
      · obtain ⟨d, hd, ha, hb, hc⟩ := ih acc hrest
        refine ⟨d, ?_, ?_, ?_, hc⟩
        · simp only [diffPropsChanged, he2, hs, if_false]
          rw [hpr, Obj.assign_proto]
          simpa [hpr] using hd
        · intro kv hkv
          rcases ha kv hkv with h | ⟨h1, h2, h3⟩
          · exact Or.inl h
          · exact Or.inr ⟨List.mem_cons_of_mem _ h1, h2, h3⟩
        · intro k hk hk1 hne
          rcases List.mem_cons.mp hk with rfl | hk
          · exact absurd hpr hk1
          · exact hb k hk hk1 hne
      · obtain ⟨d, hd, ha, hb, hc⟩ := ih (Obj.set acc key (Props.read newProps key)) hrest
        refine ⟨d, ?_, ?_, ?_, ?_⟩
        · simp only [diffPropsChanged, he2, hs, if_false, Obj.assign_of_ne _ _ _ hpr]
          simpa using hd
        · intro kv hkv
          rcases ha kv hkv with h | ⟨h1, h2, h3⟩
          · rcases Obj.mem_set _ _ _ _ h with h | h
            · refine Or.inr ?_
              rw [h]
              exact ⟨List.mem_cons_self _ _, hs, rfl⟩
            · exact Or.inl h
          · exact Or.inr ⟨List.mem_cons_of_mem _ h1, h2, h3⟩
        · intro k hk _ hne
          rcases List.mem_cons.mp hk with rfl | hk
          · exact hc _ ((Obj.mem_keys_set _ _ _ _).mpr (Or.inl rfl))
          · exact hb k hk (by assumption) hne
        · intro k hk
          exact hc _ ((Obj.mem_keys_set _ _ _ _).mpr (Or.inr hk))

/-- Applying a delta without style entry to a mapping: the patched mapping reads the
delta value on the keys of the delta and is unchanged elsewhere. -/
theorem patchProps_plain (newProps : Props) (d nodeProps : Props)
    (hd : ∀ kv ∈ d, kv.1 ≠ "style" ∧ kv.2 = Props.read newProps kv.1) :
    ∃ patched, patchProps nodeProps d = .ok patched ∧
      (∀ k, Props.read patched k =
        if k ∈ Obj.keys d then Props.read newProps k else Props.read nodeProps k) ∧
      (∀ k ∈ Obj.keys patched, k ∈ Obj.keys nodeProps ∨ k ∈ Obj.keys d) := by
  induction d generalizing nodeProps with
  | nil => exact ⟨nodeProps, rfl, fun k => by simp [Obj.keys], fun k hk => Or.inl hk⟩
  | cons hd0 rest ih =>
    obtain ⟨key, v⟩ := hd0
    obtain ⟨hs, hv⟩ := hd (key, v) (List.mem_cons_self _ _)
    simp only at hs hv
    obtain ⟨patched, hp, hread, hkeys⟩ :=
      ih (Obj.set nodeProps key v) (fun kv hkv => hd kv (List.mem_cons_of_mem _ hkv))
    refine ⟨patched, ?_, ?_, ?_⟩
    · simp only [patchProps, hs, if_false]; exact hp
    · intro k
      rw [hread k, Props.read_set]
      by_cases h1 : k ∈ Obj.keys rest
      · have h3 : k ∈ Obj.keys ((key, v) :: rest) := List.mem_cons_of_mem _ h1
        rw [if_pos h1, if_pos h3]
      · by_cases h2 : k = key
        · have h3 : k ∈ Obj.keys ((key, v) :: rest) := by
            rw [h2]; exact List.mem_cons_self _ _
          rw [if_neg h1, if_pos h2, if_pos h3, hv, h2]
        · have h3 : k ∉ Obj.keys ((key, v) :: rest) := by
            simp only [Obj.keys, List.map_cons, List.mem_cons, not_or]
            exact ⟨h2, h1⟩
          rw [if_neg h1, if_neg h2, if_neg h3]
    · intro k hk
      rcases hkeys k hk with h | h
      · rcases (Obj.mem_keys_set _ _ _ _).mp h with h | h
        · exact Or.inr (by rw [h]; exact List.mem_cons_self _ _)
        · exact Or.inl h
      · exact Or.inr (List.mem_cons_of_mem _ h)

theorem Obj.mem_of_get? {α : Type} (o : Obj α) (k : String) (v : α)
    (h : Obj.get? o k = some v) : (k, v) ∈ o := by
  induction o with
  | nil => simp [Obj.get?, List.lookup] at h
  | cons hd tl ih =>
    obtain ⟨k0, v0⟩ := hd
    by_cases hk : k = k0
    · subst hk
      simp only [Obj.get?, List.lookup, beq_self_eq_true, Option.some.injEq] at h
      rw [h]
      exact List.mem_cons_self _ _
    · have hb : (k == k0) = false := by simpa using hk
      simp only [Obj.get?, List.lookup, hb] at h ih
      exact List.mem_cons_of_mem _ (ih h)

theorem inheritedMember_ne_nan (k : String) : inheritedMember k ≠ .prim .nan := by
  unfold inheritedMember
  split <;> simp

theorem Props.read_ne_nan (p : Props) (k : String) (h : p.nanFree = true) :
    Props.read p k ≠ .prim .nan := by
  unfold Props.read
  split
  · rename_i v hv
    have hmem := Obj.mem_of_get? p k v hv
    simp only [Props.nanFree, List.all_eq_true, decide_eq_true_eq] at h
    exact h _ hmem
  · exact inheritedMember_ne_nan k

/-- When every key of the old mapping is `in` the new one and every key of the new one
reads `===` values in both, the delta is empty. -/
theorem diffProps_eq_nil (oldProps newProps : Props)
    (hin : ∀ k ∈ Obj.keys oldProps, Obj.hasIn newProps k = true)
    (heq : ∀ k ∈ Obj.keys newProps,
      Val.strictEq (Props.read oldProps k) (Props.read newProps k) = true) :
    diffProps (some oldProps) (some newProps) = .ok [] := by
  simp only [diffProps]
  rw [diffPropsRemoved_all_present newProps _ _ hin]
  exact diffPropsChanged_all_equal _ _ _ _ (fun k hk => Or.inr (heq k hk))

theorem diffProps_self (p : Props) (h : p.nanFree = true) :
    diffProps (some p) (some p) = .ok [] :=
  diffProps_eq_nil p p
    (fun _ hk => Obj.hasIn_of_has _ _ ((Obj.has_iff_mem_keys _ _).mpr hk))
    (fun _ _ => Val.strictEq_self _ (Props.read_ne_nan p _ h))

theorem isSameNode_of_truthy (a b : VNode) (ha : a.truthy = true) (hb : b.truthy = true) :
    isSameNode a b = .ok (decide (a.typeOf = b.typeOf) && Val.strictEq a.keyOf b.keyOf) := by
  cases a <;> cases b <;> simp_all [isSameNode, VNode.truthy]

theorem buildKeyIndexMap_unkeyed (cs : List VNode) (index : Nat) (m : Obj Nat)
    (h : ∀ c ∈ cs, c.truthy = true ∧ c.keyOf = .prim .undefined) :
    buildKeyIndexMap cs index m = .ok m := by
  induction cs generalizing index with
  | nil => rfl
  | cons c rest ih =>
    obtain ⟨ht, hk⟩ := h c (List.mem_cons_self _ _)
    have hrest := ih (index + 1) (fun c hc => h c (List.mem_cons_of_mem _ hc))
    cases c with
    | absent => simp [VNode.truthy] at ht
    | text s => simp only [buildKeyIndexMap, hk, Val.truthy]; simpa using hrest
    | elem t p ch => simp only [buildKeyIndexMap, hk, Val.truthy]; simpa using hrest

theorem diffChildrenLoop_replace
    (recur : Nat → VNode → VNode → Res (List Patch × VNode × Nat)) (olds news : List VNode)
    (hlen : olds.length = news.length)
    (h : ∀ i, i < news.length → Unrelated (olds.getD i .absent) (news.getD i .absent)) :
    ∀ (k i fuel clock : Nat) (patches : List Patch), i + k = news.length → k + 1 ≤ fuel →
      diffChildrenLoop recur [] news fuel clock olds i i patches
        = .ok (patches ++ (List.range' i k).map (fun j => .REPLACE (news.getD j .absent) j),
            olds, clock) := by
  intro k
  induction k with
  | zero =>
    intro i fuel clock patches hi hfuel
    obtain ⟨f, rfl⟩ : ∃ f, fuel = f + 1 := ⟨fuel - 1, by omega⟩
    have h1 : ¬ i < news.length := by omega
    have h2 : ¬ i < olds.length := by omega
    simp [diffChildrenLoop, h1, h2]
  | succ k ih =>
    intro i fuel clock patches hi hfuel
    obtain ⟨f, rfl⟩ : ∃ f, fuel = f + 1 := ⟨fuel - 1, by omega⟩
    have h1 : i < news.length := by omega
    obtain ⟨ho, hn, hty, _, hkn⟩ := h i h1
    have hsame : isSameNode (olds.getD i .absent) (news.getD i .absent) = .ok false := by
      rw [isSameNode_of_truthy _ _ ho hn, decide_eq_false hty]
      rfl
    have hpm : isProtoMember "undefined" = false := by decide
    rw [diffChildrenLoop]
    simp only [h1, true_or, if_true, ho, hn, Bool.not_true, hsame, hkn, Obj.get?, List.lookup,
      Val.keyName, hpm, Bool.false_eq_true, if_false]
    rw [ih (i + 1) f clock _ (by omega) (by omega)]
    simp [List.range'_succ]

theorem mem_getD_of_lt (l : List VNode) (c : VNode) (hc : c ∈ l) :
    ∃ i, i < l.length ∧ l.getD i .absent = c := by
  obtain ⟨i, hi, rfl⟩ := List.mem_iff_getElem.mp hc
  exact ⟨i, hi, by simp [List.getD, hi]⟩

theorem VNode.size_pos (v : VNode) : 1 ≤ v.size := by
  cases v with
  | absent => simp [VNode.size]
  | text s => simp [VNode.size]
  | elem t p ch => cases ch <;> simp [VNode.size]

theorem VNode.size_le_sizeList (cs : List VNode) (c : VNode) (hc : c ∈ cs) :
    c.size ≤ VNode.sizeList cs := by
  induction cs with
  | nil => simp at hc
  | cons d rest ih =>
    simp only [VNode.sizeList]
    rcases List.mem_cons.mp hc with rfl | hc
    · omega
    · have := ih hc
      omega

theorem VNode.length_le_sizeList (cs : List VNode) : cs.length ≤ VNode.sizeList cs := by
  induction cs with
  | nil => simp [VNode.sizeList]
  | cons d rest ih =>
    have := VNode.size_pos d
    simp only [VNode.sizeList, List.length_cons]
    omega

mutual
theorem WellFormed.of_wellFormed : ∀ v : VNode, v.wellFormed = true → WellFormed v
  | .absent, h => by simp [VNode.wellFormed] at h
  | .text _, h => by simp [VNode.wellFormed] at h
  | .elem _ none _, h => by simp [VNode.wellFormed] at h
  | .elem _ (some _) none, h => by simp [VNode.wellFormed] at h
  | .elem t (some p) (some cs), h =>
      WellFormed.elem t p cs (WellFormed.of_wellFormedList cs (by simpa [VNode.wellFormed] using h))
theorem WellFormed.of_wellFormedList :
    ∀ cs : List VNode, VNode.wellFormedList cs = true → ∀ c ∈ cs, WellFormed c
  | [], _ => by simp
  | d :: rest, h => by
      intro c hc
      simp only [VNode.wellFormedList, Bool.and_eq_true] at h
      rcases List.mem_cons.mp hc with rfl | hc
      · exact WellFormed.of_wellFormed _ h.1
      · exact WellFormed.of_wellFormedList rest h.2 c hc
end

theorem buildKeyIndexMap_ok (cs : List VNode) (index : Nat) (m : Obj Nat)
    (h : ∀ c ∈ cs, c.truthy = true) : ∃ m1, buildKeyIndexMap cs index m = .ok m1 := by
  induction cs generalizing index m with
  | nil => exact ⟨m, rfl⟩
  | cons c rest ih =>
    have ht := h c (List.mem_cons_self _ _)
    have hrest : ∀ c ∈ rest, c.truthy = true := fun c hc => h c (List.mem_cons_of_mem _ hc)
    cases c with
    | absent => simp [VNode.truthy] at ht
    | text s =>
      simp only [buildKeyIndexMap]
      split
      · exact ih _ _ hrest
      · exact ih _ _ hrest
    | elem t p ch =>
      simp only [buildKeyIndexMap]
      split
      · exact ih _ _ hrest
      · exact ih _ _ hrest

theorem set_getElem_same {α : Type} (l : List α) (i : Nat) (h : i < l.length) :
    l.set i (l.get ⟨i, h⟩) = l := by
  induction l generalizing i with
  | nil => simp at h
  | cons a rest ih =>
    cases i with
    | zero => rfl
    | succ j =>
      simp only [List.set, List.get]
      rw [ih j (by simpa using h)]

theorem VNode.nanFreeList_iff (cs : List VNode) :
    VNode.nanFreeList cs = true ↔ ∀ c ∈ cs, c.nanFree = true := by
  induction cs with
  | nil => simp [VNode.nanFreeList]
  | cons c rest ih => simp [VNode.nanFreeList, ih]

theorem VNode.keyOf_ne_nan (c : VNode) (h : c.nanFree = true) : c.keyOf ≠ .prim .nan := by
  cases c with
  | absent => simp [VNode.keyOf, VNode.propsOf]
  | text s => simp [VNode.keyOf, VNode.propsOf]
  | elem t p ch =>
    cases p with
    | none => simp [VNode.keyOf, VNode.propsOf]
    | some p =>
      have hp : p.nanFree = true := by
        cases ch with
        | none => simpa [VNode.nanFree] using h
        | some cs =>
          simp only [VNode.nanFree, Option.getD_some, Bool.and_eq_true] at h
          exact h.1
      simp only [VNode.keyOf, VNode.propsOf]
      exact Props.read_ne_nan p "key" hp

theorem diffChildrenLoop_self
    (recur : Nat → VNode → VNode → Res (List Patch × VNode × Nat)) (m : Obj Nat)
    (cs : List VNode) (htruthy : ∀ c ∈ cs, c.truthy = true)
    (hkey : ∀ c ∈ cs, c.keyOf ≠ .prim .nan)
    (hrec : ∀ c ∈ cs, ∀ clock, ∃ clock1, recur clock c c = .ok ([], c, clock1)) :
    ∀ (k i fuel clock : Nat) (patches : List Patch), i + k = cs.length → k + 1 ≤ fuel →
      ∃ clock1, diffChildrenLoop recur m cs fuel clock cs i i patches
        = .ok (patches, cs, clock1) := by
  intro k
  induction k with
  | zero =>
    intro i fuel clock patches hi hfuel
    obtain ⟨f, rfl⟩ : ∃ f, fuel = f + 1 := ⟨fuel - 1, by omega⟩
    have h1 : ¬ i < cs.length := by omega
    exact ⟨clock, by simp [diffChildrenLoop, h1]⟩
  | succ k ih =>
    intro i fuel clock patches hi hfuel
    obtain ⟨f, rfl⟩ : ∃ f, fuel = f + 1 := ⟨fuel - 1, by omega⟩
    have h1 : i < cs.length := by omega
    have hget : cs.getD i .absent = cs[i] := by simp [List.getD, h1]
    have hmem : cs[i] ∈ cs := List.getElem_mem _
    have ht := htruthy _ hmem
    obtain ⟨clock1, hr⟩ := hrec _ hmem clock
    have hsame : isSameNode cs[i] cs[i] = .ok true := by
      rw [isSameNode_of_truthy _ _ ht ht, Val.strictEq_self _ (hkey _ hmem)]
      simp
    obtain ⟨clock2, h2⟩ := ih (i + 1) f clock1 patches (by omega) (by omega)
    refine ⟨clock2, ?_⟩
    rw [diffChildrenLoop]
    have hset : cs.set i cs[i] = cs := set_getElem_same cs i h1
    simp only [h1, true_or, if_true, hget, ht, Bool.not_true, hsame, hr, List.map_nil,
      List.append_nil, hset]
    simpa using h2

theorem diffRun_self (v : VNode) (hwf : WellFormed v) :
    ∀ fuel clock, v.nanFree = true → 2 * v.size ≤ fuel →
      ∃ clock1, diffRun fuel neverYield clock v v = .ok ([], v, clock1) := by
  induction hwf with
  | elem type props children hch ih =>
    intro fuel clock hnan hfuel
    simp only [VNode.size] at hfuel
    simp only [VNode.nanFree, Option.getD_some, Bool.and_eq_true, VNode.nanFreeList_iff] at hnan
    obtain ⟨f, rfl⟩ : ∃ f, fuel = f + 1 := ⟨fuel - 1, by omega⟩
    have htruthy : ∀ c ∈ children, c.truthy = true := by
      intro c hc
      cases hch c hc
      rfl
    obtain ⟨m, hm⟩ := buildKeyIndexMap_ok children 0 [] htruthy
    have hrec : ∀ c ∈ children, ∀ clock,
        ∃ clock1, diffRun f neverYield clock c c = .ok ([], c, clock1) := by
      intro c hc clock
      have := VNode.size_le_sizeList children c hc
      exact ih c hc f clock (hnan.2 c hc) (by omega)
    have hlen := VNode.length_le_sizeList children
    obtain ⟨clock1, hloop⟩ := diffChildrenLoop_self (diffRun f neverYield) m children htruthy
      (fun c hc => VNode.keyOf_ne_nan c (hnan.2 c hc)) hrec
      children.length 0 f (clock + 1) [] (by omega) (by omega)
    refine ⟨clock1, ?_⟩
    simp [diffRun, dfsWalk, neverYield, VNode.truthy, VNode.typeOf,
      VNode.propsOf, VNode.childrenOf, diffProps_self props hnan.1, diffChildren, hm, hloop,
      VNode.withChildren]

/-! ## Claims -/

/-- C1 (evaluation at the failing input): with old `div[span]` and new `div[p]`, `diff` is
the single operation `REPLACE p` at index 0, and `patch` resolves that index in the child
list of the target itself: the rendering of old is replaced by a `p` element, so the target
does not hold the rendering `div[p]` of new. -/
theorem C1_child_replace_hits_target_child :
    createElement (node "div" [] [node "span" [] []]) = .ok (bare "div" [bare "span" []]) ∧
    createElement (node "div" [] [node "p" [] []]) = .ok (bare "div" [bare "p" []]) ∧
    diff 3 neverYield (node "div" [] [node "span" [] []]) (node "div" [] [node "p" [] []])
      = .ok [.REPLACE (node "p" [] []) 0] ∧
    patch (container [bare "div" [bare "span" []]]) [.REPLACE (node "p" [] []) 0]
      = (container [bare "p" []], none) ∧
    ¬ HoldsRendering (container [bare "p" []]) (node "div" [] [node "p" [] []]) := by
  refine ⟨rfl, rfl, rfl, rfl, ?_⟩
  rintro ⟨d, hd, h0⟩
  have h1 : createElement (node "div" [] [node "p" [] []]) = .ok (bare "div" [bare "p" []]) := rfl
  rw [h1] at hd
  cases hd
  simp [container, bare, Dom.childNodes] at h0

/-- C2 (amended): for every well-formed tree `a` none of whose attribute values is NaN,
with `shouldYield()` false throughout and fuel at least twice the size of `a`, `diff(a, a)`
returns the empty operation list. -/
theorem C2_diff_self_is_empty (a : VNode) (fuel : Nat) (hwf : a.wellFormed = true)
    (hnan : a.nanFree = true) (hfuel : 2 * a.size ≤ fuel) :
    diff fuel neverYield a a = .ok [] := by
  obtain ⟨clock1, h⟩ := diffRun_self a (WellFormed.of_wellFormed a hwf) fuel 0 hnan hfuel
  simp [diff, h, Res.map]

/-- C2 (amended) at a keyed list with a nested child. -/
theorem C2_witness :
    (node "ul" [("id", strVal "list")]
        [keyed 1, node "li" [("key", strVal "b")] [node "b" [] []]]).wellFormed = true ∧
    (node "ul" [("id", strVal "list")]
        [keyed 1, node "li" [("key", strVal "b")] [node "b" [] []]]).nanFree = true ∧
    2 * (node "ul" [("id", strVal "list")]
        [keyed 1, node "li" [("key", strVal "b")] [node "b" [] []]]).size ≤ 8 ∧
    diff 8 neverYield
        (node "ul" [("id", strVal "list")] [keyed 1, node "li" [("key", strVal "b")] [node "b" [] []]])
        (node "ul" [("id", strVal "list")] [keyed 1, node "li" [("key", strVal "b")] [node "b" [] []]])
      = .ok [] :=
  ⟨by decide, by decide, by decide,
    C2_diff_self_is_empty _ 8 (by decide) (by decide) (by decide)⟩

/-- C2 as stated fails: NaN is not `===` to itself, so for the well-formed tree
`div{x: NaN}` the diff against itself is one `UPDATE_PROPS` carrying `{x: NaN}`, and a child
whose key is NaN is not the same node as itself and is replaced. -/
theorem C2_counterexample :
    (node "div" [("x", .prim .nan)] []).wellFormed = true ∧
    diff 2 neverYield (node "div" [("x", .prim .nan)] []) (node "div" [("x", .prim .nan)] [])
      = .ok [.UPDATE_PROPS [("x", .prim .nan)] 0] ∧
    (node "ul" [] [node "li" [("key", .prim .nan)] []]).wellFormed = true ∧
    diff 4 neverYield (node "ul" [] [node "li" [("key", .prim .nan)] []])
        (node "ul" [] [node "li" [("key", .prim .nan)] []])
      = .ok [.REPLACE (node "li" [("key", .prim .nan)] []) 0] :=
  ⟨by decide, rfl, by decide, rfl⟩

/-- C3 (amended): when every key of `old` is also a key of `new`, no style delta is
computed (the `style` values are identical, or `new` has no `style`) and no value of `new`
is NaN, `diffProps(old, new)` returns a delta `d`, applying `d` to `old` succeeds, and
`diffProps` of the patched mapping against `new` is empty. -/
theorem C3_round_trip_without_removal_or_style (oldProps newProps : Props)
    (hkeys : ∀ k ∈ Obj.keys oldProps, Obj.has newProps k = true)
    (hstyle : Val.strictEq (Props.read oldProps "style") (Props.read newProps "style") = true ∨
      Obj.has newProps "style" = false)
    (hnan : newProps.nanFree = true) :
    ∃ d patched, diffProps (some oldProps) (some newProps) = .ok d ∧
      patchProps oldProps d = .ok patched ∧
      diffProps (some patched) (some newProps) = .ok [] := by
  have hks : ∀ k ∈ Obj.keys newProps,
      Val.strictEq (Props.read oldProps k) (Props.read newProps k) = false → k ≠ "style" := by
    intro k hk hne hs
    subst hs
    rcases hstyle with h | h
    · rw [h] at hne; cases hne
    · rw [(Obj.has_iff_mem_keys _ _).mpr hk] at h; cases h
  obtain ⟨d, hd, ha, hb, _⟩ := diffPropsChanged_plain oldProps newProps (Obj.keys newProps) [] hks
  have ha2 : ∀ kv ∈ d,
      kv.1 ∈ Obj.keys newProps ∧ kv.1 ≠ "style" ∧ kv.2 = Props.read newProps kv.1 := by
    intro kv hkv
    rcases ha kv hkv with h | h
    · simp at h
    · exact h
  obtain ⟨patched, hp, hread, hpk⟩ :=
    patchProps_plain newProps d oldProps (fun kv hkv => (ha2 kv hkv).2)
  refine ⟨d, patched, ?_, hp, ?_⟩
  · simp only [diffProps, diffPropsRemoved_all_present newProps _ _
      (fun k hk => Obj.hasIn_of_has _ _ (hkeys k hk))]
    exact hd
  · have hpresent : ∀ k ∈ Obj.keys patched, Obj.hasIn newProps k = true := by
      intro k hk
      rcases hpk k hk with h | h
      · exact Obj.hasIn_of_has _ _ (hkeys k h)
      · obtain ⟨kv, hkv, rfl⟩ := List.mem_map.mp h
        exact Obj.hasIn_of_has _ _ ((Obj.has_iff_mem_keys _ _).mpr (ha2 kv hkv).1)
    have hequal : ∀ k ∈ Obj.keys newProps, k = "__proto__" ∨
        Val.strictEq (Props.read patched k) (Props.read newProps k) = true := by
      intro k hk
      by_cases hpr : k = "__proto__"
      · exact Or.inl hpr
      · refine Or.inr ?_
        rw [hread k]
        by_cases h : k ∈ Obj.keys d
        · simp only [h, if_true]
          exact Val.strictEq_self _ (Props.read_ne_nan newProps k hnan)
        · simp only [h, if_false]
          by_contra hne
          exact h (hb k hk hpr (by simpa using hne))
    simp only [diffProps, diffPropsRemoved_all_present newProps _ _ hpresent]
    exact diffPropsChanged_all_equal _ _ _ _ hequal

/-- C3 (amended) at `{id: "old", title: "t"}` against `{id: "new", title: "t", lang: "en"}`. -/
theorem C3_witness :
    (∀ k ∈ Obj.keys [("id", strVal "old"), ("title", strVal "t")],
      Obj.has [("id", strVal "new"), ("title", strVal "t"), ("lang", strVal "en")] k = true) ∧
    (Val.strictEq (Props.read [("id", strVal "old"), ("title", strVal "t")] "style")
        (Props.read [("id", strVal "new"), ("title", strVal "t"), ("lang", strVal "en")] "style")
        = true ∨
      Obj.has [("id", strVal "new"), ("title", strVal "t"), ("lang", strVal "en")] "style"
        = false) ∧
    Props.nanFree [("id", strVal "new"), ("title", strVal "t"), ("lang", strVal "en")] = true ∧
    ∃ d patched,
      diffProps (some [("id", strVal "old"), ("title", strVal "t")])
        (some [("id", strVal "new"), ("title", strVal "t"), ("lang", strVal "en")]) = .ok d ∧
      patchProps [("id", strVal "old"), ("title", strVal "t")] d = .ok patched ∧
      diffProps (some patched)
        (some [("id", strVal "new"), ("title", strVal "t"), ("lang", strVal "en")]) = .ok [] :=
  ⟨by decide, by decide, by decide,
    C3_round_trip_without_removal_or_style [("id", strVal "old"), ("title", strVal "t")]
      [("id", strVal "new"), ("title", strVal "t"), ("lang", strVal "en")]
      (by decide) (by decide) (by decide)⟩

/-- C3 as stated fails: a removed key is patched to `null` and stays a key of the patched
mapping, so the second delta is `{id: null}` again; two distinct style objects stay
distinct after the fields are assigned, so the second delta is `{style: {}}`; and a NaN
value is emitted again after it has been assigned, so the second delta is `{x: NaN}`. -/
theorem C3_counterexample :
    (diffProps (some [("id", strVal "a")]) (some []) = .ok [("id", .prim .null)] ∧
      patchProps [("id", strVal "a")] [("id", .prim .null)] = .ok [("id", .prim .null)] ∧
      diffProps (some [("id", .prim .null)]) (some []) = .ok [("id", .prim .null)]) ∧
    (diffProps (some [("style", .obj 1 [("color", .str "red")])])
        (some [("style", .obj 2 [("color", .str "blue")])])
        = .ok [("style", .obj 0 [("color", .str "blue")])] ∧
      patchProps [("style", .obj 1 [("color", .str "red")])]
        [("style", .obj 0 [("color", .str "blue")])]
        = .ok [("style", .obj 1 [("color", .str "blue")])] ∧
      diffProps (some [("style", .obj 1 [("color", .str "blue")])])
        (some [("style", .obj 2 [("color", .str "blue")])])
        = .ok [("style", .obj 0 [])]) ∧
    (diffProps (some [("x", .prim (.num 1))]) (some [("x", .prim .nan)])
        = .ok [("x", .prim .nan)] ∧
      patchProps [("x", .prim (.num 1))] [("x", .prim .nan)] = .ok [("x", .prim .nan)] ∧
      diffProps (some [("x", .prim .nan)]) (some [("x", .prim .nan)])
        = .ok [("x", .prim .nan)]) :=
  ⟨⟨rfl, rfl, rfl⟩, ⟨rfl, rfl, rfl⟩, rfl, rfl, rfl⟩

/-- C4 (evaluation at the failing input): for old children `[li(1), li(2), li(3)]` and new
children `[li(3), li(1), li(2)]` the operation list is one `MOVE` followed by two `REPLACE`
operations and a `REMOVE`. -/
theorem C4_keyed_rotation_emits_replace_and_remove :
    diff 8 neverYield (node "ul" [] [keyed 1, keyed 2, keyed 3])
        (node "ul" [] [keyed 3, keyed 1, keyed 2])
      = .ok [.MOVE 2 0 none, .REPLACE (keyed 1) 0, .REPLACE (keyed 2) 1, .REMOVE 2] := rfl

/-- C5 (amended): for two nodes of the same kind with empty child lists, with
`shouldYield()` false, whenever `diffProps` returns a delta `d` and the attribute maps
differ on a key (a key of `old` that is not `in` `new`, or a key of `new` other than
`__proto__` whose value is not `===` to what `old` reads there), `diff(old, new)` is exactly
one `UPDATE_PROPS` operation at index 0 carrying `d`. -/
theorem C5_same_kind_leaf_single_update (type : String) (oldProps newProps d : Props)
    (fuel : Nat) (hfuel : 2 ≤ fuel)
    (hd : diffProps (some oldProps) (some newProps) = .ok d)
    (hdiff : PropsDiffer oldProps newProps) :
    diff fuel neverYield (node type oldProps []) (node type newProps [])
      = .ok [.UPDATE_PROPS d 0] := by
  obtain ⟨f, rfl⟩ : ∃ f, fuel = f + 2 := ⟨fuel - 2, by omega⟩
  have hne : d ≠ [] := diffProps_ne_nil_of_differ _ _ _ hd hdiff
  have hlen : d.length > 0 := List.length_pos.mpr hne
  simp [diff, diffRun, dfsWalk, node, neverYield, VNode.truthy, VNode.typeOf, VNode.propsOf,
    VNode.childrenOf, hd, diffChildren_nil, hlen, Res.map, VNode.withChildren]

/-- C5 (amended) at `div[id=old]` against `div[id=new]`. -/
theorem C5_witness :
    2 ≤ 2 ∧
    diffProps (some [("id", strVal "old")]) (some [("id", strVal "new")])
      = .ok [("id", strVal "new")] ∧
    PropsDiffer [("id", strVal "old")] [("id", strVal "new")] ∧
    diff 2 neverYield (node "div" [("id", strVal "old")] []) (node "div" [("id", strVal "new")] [])
      = .ok [.UPDATE_PROPS [("id", strVal "new")] 0] :=
  ⟨by decide, rfl, Or.inr ⟨"id", by decide, by decide, by decide⟩,
    C5_same_kind_leaf_single_update "div" [("id", strVal "old")] [("id", strVal "new")]
      [("id", strVal "new")] 2 (by decide) rfl
      (Or.inr ⟨"id", by decide, by decide, by decide⟩)⟩

/-- C5 as stated fails: when only `new` has a `style`, `diffProps` reads a field of the
missing old style and `diff` throws; when the maps differ by a key whose value is
`undefined`, the delta is empty and `diff` returns no operation; and when `old` has a key
that `new` only inherits from `Object.prototype`, `key in new` is true, no removal is
emitted and `diff` returns no operation. -/
theorem C5_counterexample :
    (PropsDiffer [] [("style", .obj 1 [("color", .str "red")])] ∧
      diff 2 neverYield (node "div" [] []) (node "div" [("style", .obj 1 [("color", .str "red")])] [])
        = .typeError) ∧
    (([] : Props) ≠ [("title", .prim .undefined)] ∧
      diff 2 neverYield (node "div" [] []) (node "div" [("title", .prim .undefined)] [])
        = .ok []) ∧
    (([("toString", strVal "x")] : Props) ≠ [] ∧
      diff 2 neverYield (node "div" [("toString", strVal "x")] []) (node "div" [] [])
        = .ok []) := by
  refine ⟨⟨Or.inr ⟨"style", by decide, by decide, by decide⟩, rfl⟩, ⟨by simp, rfl⟩,
    by simp, rfl⟩

/-- C6 (amended): for two parents of the same kind whose attribute maps show no difference
(every key of `old` is `in` `new`, and every key of `new` reads `===` values in `old` and
in `new`) and whose child lists have the same length `n`, the children at each position
being present, unkeyed and of different kinds, with `shouldYield()` false and fuel at least
`n + 2`, `diff` returns exactly the `n` operations `REPLACE news[i]` at index `i`, for
`i = 0 .. n-1` in order. -/
theorem C6_positionwise_replace (type : String) (oldProps newProps : Props)
    (olds news : List VNode) (fuel : Nat)
    (hin : ∀ k ∈ Obj.keys oldProps, Obj.hasIn newProps k = true)
    (heq : ∀ k ∈ Obj.keys newProps,
      Val.strictEq (Props.read oldProps k) (Props.read newProps k) = true)
    (hlen : olds.length = news.length)
    (h : ∀ i, i < news.length → Unrelated (olds.getD i .absent) (news.getD i .absent))
    (hfuel : news.length + 2 ≤ fuel) :
    diff fuel neverYield (node type oldProps olds) (node type newProps news)
      = .ok ((List.range news.length).map fun i => .REPLACE (news.getD i .absent) i) := by
  obtain ⟨f, rfl⟩ : ∃ f, fuel = f + 1 := ⟨fuel - 1, by omega⟩
  have hmap : buildKeyIndexMap olds 0 [] = .ok [] := by
    apply buildKeyIndexMap_unkeyed
    intro c hc
    obtain ⟨i, hi, rfl⟩ := mem_getD_of_lt olds c hc
    obtain ⟨ho, _, _, hk, _⟩ := h i (by omega)
    exact ⟨ho, hk⟩
  have hloop := diffChildrenLoop_replace (diffRun f neverYield) olds news hlen h
    news.length 0 f 1 [] (by omega) (by omega)
  have hprops := diffProps_eq_nil oldProps newProps hin heq
  simp only [diff, diffRun, dfsWalk, node, neverYield, VNode.truthy, VNode.typeOf,
    VNode.propsOf, VNode.childrenOf, hprops, diffChildren, hmap, hloop]
  simp [Res.map, List.range_eq_range', hloop]

/-- C6 (amended) at the attribute maps `{a: 1, b: 2}` and `{b: 2, a: 1}`, old children
`[span]` and new children `[div]`: a single `REPLACE`. -/
theorem C6_witness :
    (∀ k ∈ Obj.keys [("a", Val.prim (.num 1)), ("b", Val.prim (.num 2))],
      Obj.hasIn [("b", Val.prim (.num 2)), ("a", Val.prim (.num 1))] k = true) ∧
    (∀ k ∈ Obj.keys [("b", Val.prim (.num 2)), ("a", Val.prim (.num 1))],
      Val.strictEq (Props.read [("a", .prim (.num 1)), ("b", .prim (.num 2))] k)
        (Props.read [("b", .prim (.num 2)), ("a", .prim (.num 1))] k) = true) ∧
    [VNode.elem "span" none none].length = [VNode.elem "div" none none].length ∧
    (∀ i, i < [VNode.elem "div" none none].length →
      Unrelated ([VNode.elem "span" none none].getD i .absent)
        ([VNode.elem "div" none none].getD i .absent)) ∧
    [VNode.elem "div" none none].length + 2 ≤ 3 ∧
    diff 3 neverYield
        (node "div" [("a", .prim (.num 1)), ("b", .prim (.num 2))] [.elem "span" none none])
        (node "div" [("b", .prim (.num 2)), ("a", .prim (.num 1))] [.elem "div" none none])
      = .ok [.REPLACE (.elem "div" none none) 0] :=
  have h : ∀ i, i < [VNode.elem "div" none none].length →
      Unrelated ([VNode.elem "span" none none].getD i .absent)
        ([VNode.elem "div" none none].getD i .absent) := by
    intro i hi
    have hi0 : i = 0 := by simpa using hi
    subst hi0
    exact ⟨rfl, rfl, by decide, rfl, rfl⟩
  ⟨by decide, by decide, rfl, h, by decide,
    C6_positionwise_replace "div" [("a", .prim (.num 1)), ("b", .prim (.num 2))]
      [("b", .prim (.num 2)), ("a", .prim (.num 1))] [.elem "span" none none]
      [.elem "div" none none] 3 (by decide) (by decide) rfl h (by decide)⟩

/-- C6 as stated fails: two parents whose attribute maps have equal contents do not have
`===` values when the `style` objects are distinct objects or when a value is NaN, and then
an `UPDATE_PROPS` precedes the `REPLACE`: 2 operations for `n = 1`. -/
theorem C6_counterexample :
    diff 3 neverYield
        (node "div" [("style", .obj 1 [("color", .str "red")])] [node "span" [] []])
        (node "div" [("style", .obj 2 [("color", .str "red")])] [node "div" [] []])
      = .ok [.UPDATE_PROPS [("style", .obj 0 [])] 0, .REPLACE (node "div" [] []) 0] ∧
    diff 3 neverYield (node "div" [("x", .prim .nan)] [node "span" [] []])
        (node "div" [("x", .prim .nan)] [node "div" [] []])
      = .ok [.UPDATE_PROPS [("x", .prim .nan)] 0, .REPLACE (node "div" [] []) 0] :=
  ⟨rfl, rfl⟩

/-- C7 (evaluation at the failing input): on a `div` target whose id is `"old"`, the
operations of `diff(null, div[id=new])` append a child and the operations of
`diff(div[id=old], div[id=new])` address a child that does not exist; after either `patch`
the `id` of the target itself is still `"old"`. -/
theorem C7_target_id_stays_old :
    diff 2 neverYield .absent (node "div" [("id", strVal "new")] [])
      = .ok [.ADD (node "div" [("id", strVal "new")] []) 0] ∧
    Props.read (patch divWithIdOld [.ADD (node "div" [("id", strVal "new")] []) 0]).1.own.props "id"
      = strVal "old" ∧
    diff 2 neverYield (node "div" [("id", strVal "old")] []) (node "div" [("id", strVal "new")] [])
      = .ok [.UPDATE_PROPS [("id", strVal "new")] 0] ∧
    Props.read (patch divWithIdOld [.UPDATE_PROPS [("id", strVal "new")] 0]).1.own.props "id"
      = strVal "old" := by
  refine ⟨rfl, rfl, rfl, rfl⟩

/-- C8 (amended): whenever the check made on entering a node reports true, the walk of
that node returns the single operation `PAUSE` and leaves the node untouched: nothing is
emitted for its attributes or its descendants. When this happens at the root, `diff`
returns exactly `[PAUSE 0]`, so that `PAUSE` is the final entry. -/
theorem C8_paused_node_emits_only_pause (fuel : Nat) (shouldYield : Nat → Bool)
    (oldNode newNode : VNode) :
    (∀ clock, shouldYield clock = true →
      diffRun (fuel + 1) shouldYield clock oldNode newNode
        = .ok ([.PAUSE 0], oldNode, clock + 1)) ∧
    (shouldYield 0 = true → diff (fuel + 1) shouldYield oldNode newNode = .ok [.PAUSE 0]) := by
  have h : ∀ clock, shouldYield clock = true →
      diffRun (fuel + 1) shouldYield clock oldNode newNode
        = .ok ([.PAUSE 0], oldNode, clock + 1) := by
    intro clock hc
    simp [diffRun, dfsWalk, hc]
  refine ⟨h, fun h0 => ?_⟩
  simp [diff, h 0 h0, Res.map]

/-- C8 (amended) at the root of `ul[li, li]` against `ul[li, p]` when `shouldYield()` is
true from the first check on. -/
theorem C8_witness :
    (fun _ : Nat => true) 0 = true ∧
    diff 1 (fun _ => true) (node "ul" [] [node "li" [] [], node "li" [] []])
        (node "ul" [] [node "li" [] [], node "p" [] []])
      = .ok [.PAUSE 0] :=
  ⟨rfl, (C8_paused_node_emits_only_pause 0 (fun _ => true)
    (node "ul" [] [node "li" [] [], node "li" [] []])
    (node "ul" [] [node "li" [] [], node "p" [] []])).2 rfl⟩

/-- C8 as stated fails: when `shouldYield()` turns true after the root check, the walk of
the first child emits `PAUSE`, and the loop over the siblings goes on: the `REPLACE` of the
second child follows the `PAUSE` in the returned list. -/
theorem C8_counterexample :
    diff 5 yieldAfterFirst (node "ul" [] [node "li" [] [], node "li" [] []])
        (node "ul" [] [node "li" [] [], node "p" [] []])
      = .ok [.PAUSE 0, .REPLACE (node "p" [] []) 1] := rfl

/-- C9 (evaluation at the failing inputs): with an empty queue, merging the batch Normal
then Immediate for one component leaves its single task at Normal, and merging Immediate
then Idle leaves it at Idle: the merge keeps the numerically larger, less urgent, priority. -/
theorem C9_merge_keeps_less_urgent_priority :
    (flushBatchUpdates 0 ⟨[], [⟨7, false, NormalPriority⟩, ⟨7, false, ImmediatePriority⟩], true⟩).1.updateQueue
      = [⟨7, false, NormalPriority, 0⟩] ∧
    (flushBatchUpdates 0 ⟨[], [⟨7, false, ImmediatePriority⟩, ⟨7, false, IdlePriority⟩], true⟩).1.updateQueue
      = [⟨7, false, IdlePriority, 0⟩] := by
  decide

/-- C10 (evaluation at the failing input): after merging an Immediate request for component
1 and an Idle request for component 2, the queue holds the Idle task first, and
`processUpdateQueue` hands the Idle task to the Executor before the Immediate one. -/
theorem C10_idle_task_runs_before_immediate :
    (flushBatchUpdates 0 ⟨[], [⟨1, false, ImmediatePriority⟩, ⟨2, false, IdlePriority⟩], true⟩).1.updateQueue
      = [⟨2, false, IdlePriority, 0⟩, ⟨1, false, ImmediatePriority, 0⟩] ∧
    (processUpdateQueue neverYield
        ⟨[⟨2, false, IdlePriority, 0⟩, ⟨1, false, ImmediatePriority, 0⟩], [], true⟩).ran
      = [⟨2, false, IdlePriority, 0⟩, ⟨1, false, ImmediatePriority, 0⟩] := by
  decide

/-! ## Lemmas on the update queue -/

theorem raiseExisting_components (component priority : Nat) (q : List Task) :
    (raiseExisting component priority q).map Task.component = q.map Task.component := by
  induction q with
  | nil => rfl
  | cons t rest ih =>
    simp only [raiseExisting]
    by_cases h : t.component = component
    · simp only [h, if_true]
      by_cases hp : priority > t.priority
      · simp [hp, h]
      · simp [hp]
    · simp only [h, if_false, List.map_cons, ih]

theorem mergeRequest_nodup (now : Nat) (q : List Task) (r : Request)
    (h : (q.map Task.component).Nodup) : ((mergeRequest now q r).map Task.component).Nodup := by
  simp only [mergeRequest]
  by_cases hany : q.any (fun t => decide (t.component = r.component)) = true
  · simp only [hany, if_true, raiseExisting_components]
    exact h
  · simp only [hany]
    simp only [Bool.not_eq_true, List.any_eq_false, decide_eq_true_eq] at hany
    simp only [Bool.false_eq_true, if_false, List.map_append, List.map_cons, List.map_nil]
    refine List.Nodup.append h (List.nodup_singleton _) ?_
    intro a ha hb
    simp only [List.mem_singleton] at hb
    obtain ⟨t, ht, rfl⟩ := List.mem_map.mp ha
    exact hany t ht hb

theorem foldl_mergeRequest_nodup (now : Nat) (batch : List Request) (q : List Task)
    (h : (q.map Task.component).Nodup) :
    ((batch.foldl (mergeRequest now) q).map Task.component).Nodup := by
  induction batch generalizing q with
  | nil => exact h
  | cons r rest ih => exact ih _ (mergeRequest_nodup now q r h)

theorem mergeBatch_nodup (now : Nat) (q : List Task) (batch : List Request)
    (h : (q.map Task.component).Nodup) :
    ((mergeBatch now q batch).map Task.component).Nodup := by
  have hperm : List.Perm (mergeBatch now q batch) (batch.foldl (mergeRequest now) q) :=
    List.perm_insertionSort _ _
  exact (List.Perm.nodup_iff (hperm.map Task.component)).mpr
    (foldl_mergeRequest_nodup now batch q h)

theorem processLoop_queue_sublist (shouldYield : Nat → Bool) (q : List Task) (t : Task)
    (clock : Nat) (ran : List Task) :
    List.Sublist (processLoop shouldYield q t clock ran).2.1 q := by
  induction q generalizing t clock ran with
  | nil =>
    simp only [processLoop]
    split <;> simp
  | cons next rest ih =>
    simp only [processLoop]
    split
    · simp
    · exact (ih next (clock + 1) (ran ++ [t])).trans (List.sublist_cons_self _ _)

theorem processUpdateQueue_queue_sublist (shouldYield : Nat → Bool) (s : Scheduler) :
    List.Sublist (processUpdateQueue shouldYield s).state.updateQueue s.updateQueue := by
  unfold processUpdateQueue
  cases hq : s.updateQueue with
  | nil => simp
  | cons t rest =>
    have h := processLoop_queue_sublist shouldYield rest t 0 []
    simp only
    split
    · exact h.trans (List.sublist_cons_self _ _)
    · exact h.trans (List.sublist_cons_self _ _)

theorem enqueueUpdate_ran (now : Nat) (shouldYield : Nat → Bool) (s : Scheduler) (r : Request) :
    (enqueueUpdate now shouldYield s r).2.1 = [] := by
  unfold enqueueUpdate
  by_cases h : s.isUpdating = true
  · simp [h]
  · simp [h, flushBatchUpdates]

theorem enqueueUpdate_queue_nodup (now : Nat) (shouldYield : Nat → Bool) (s : Scheduler)
    (r : Request) (h : (s.updateQueue.map Task.component).Nodup) :
    ((enqueueUpdate now shouldYield s r).1.updateQueue.map Task.component).Nodup := by
  unfold enqueueUpdate
  by_cases hu : s.isUpdating = true
  · simpa [hu] using h
  · simp only [hu, flushBatchUpdates]
    exact mergeBatch_nodup now _ _ h

/-! ## Claims on the update queue, the component and the hooks -/

/-- C11: in every state reachable from the initial module state by calls of
`enqueueUpdate` and runs of `processUpdateQueue` (observed at their end or after any
`shift`), no two tasks of `updateQueue` belong to the same component instance. -/
theorem C11_queue_has_one_task_per_component (s : Scheduler) (h : Reachable s) :
    (s.updateQueue.map Task.component).Nodup := by
  induction h with
  | initial => simp [Scheduler.initial]
  | enqueue s now shouldYield r _ ih => exact enqueueUpdate_queue_nodup now shouldYield s r ih
  | process s shouldYield _ ih =>
    exact List.Nodup.sublist ((processUpdateQueue_queue_sublist shouldYield s).map _) ih
  | shift s _ ih =>
    exact List.Nodup.sublist ((List.tail_sublist s.updateQueue).map _) ih

/-- C11 at the state reached by `enqueueUpdate` for component 7, a run of
`processUpdateQueue`, and `enqueueUpdate` for component 8, which merges the requests of
both components. -/
theorem C11_witness :
    Reachable (enqueueUpdate 1 neverYield
      (processUpdateQueue neverYield
        (enqueueUpdate 0 neverYield Scheduler.initial ⟨7, false, NormalPriority⟩).1).state
      ⟨8, false, ImmediatePriority⟩).1 ∧
    ((enqueueUpdate 1 neverYield
      (processUpdateQueue neverYield
        (enqueueUpdate 0 neverYield Scheduler.initial ⟨7, false, NormalPriority⟩).1).state
      ⟨8, false, ImmediatePriority⟩).1.updateQueue.map Task.component).Nodup :=
  have h : Reachable (enqueueUpdate 1 neverYield
      (processUpdateQueue neverYield
        (enqueueUpdate 0 neverYield Scheduler.initial ⟨7, false, NormalPriority⟩).1).state
      ⟨8, false, ImmediatePriority⟩).1 :=
    Reachable.enqueue _ _ _ _ (Reachable.process _ _ (Reachable.enqueue _ _ _ _ Reachable.initial))
  ⟨h, C11_queue_has_one_task_per_component _ h⟩

theorem setStates_ran (now : Nat) (shouldYield : Nat → Bool) (self : Nat) (w : World)
    (ps : List PartialState) : (World.setStates now shouldYield self w ps).ran = w.ran := by
  induction ps generalizing w with
  | nil => rfl
  | cons p rest ih =>
    simp only [World.setStates]
    rw [ih]
    simp [World.setState, enqueueUpdate_ran]

theorem setStates_state (now : Nat) (shouldYield : Nat → Bool) (self : Nat) (w : World)
    (ps : List PartialState) :
    (World.setStates now shouldYield self w ps).component.state = w.component.state := by
  induction ps generalizing w with
  | nil => rfl
  | cons p rest ih =>
    simp only [World.setStates]
    rw [ih]
    simp [World.setState, Component.stagePartialState]

/-- C12 (behaviour at every input): starting from an idle update queue, the first
`setState` call of a component throws (the exception of `flushBatchUpdates`), and after
any number of `setState` calls in the same turn the Executor has been handed no task and
the committed state is the one before the calls: the component is re-rendered zero
times, not once. -/
theorem C12_setState_calls_never_reach_executor (now : Nat) (shouldYield : Nat → Bool)
    (self : Nat) (c : Component) (p : PartialState) (ps : List PartialState) :
    (World.setState now shouldYield self (World.idle c) p none).2 = .typeError ∧
    (World.setStates now shouldYield self (World.idle c) (p :: ps)).ran = [] ∧
    (World.setStates now shouldYield self (World.idle c) (p :: ps)).component.state
      = c.state := by
  refine ⟨?_, ?_, ?_⟩
  · simp [World.setState, World.idle, Scheduler.initial, enqueueUpdate, flushBatchUpdates]
  · rw [setStates_ran]; rfl
  · rw [setStates_state]; rfl

/-- C13 (evaluation at the failing input): for a component with state `{}`, the calls
`setState({a: 1})` and `setState({b: 2})` made before the next commit leave the pending
state `{b: 2}`, since each call spreads the committed state and not the pending one; the
following update commits `{b: 2}` and the key `a` is lost. This holds with an update in
progress and with an idle queue. -/
theorem C13_second_setState_drops_first :
    (World.setStates 0 neverYield 0 ⟨⟨[], [], true⟩, Component.create [], []⟩
        [.object [("a", .prim (.num 1))], .object [("b", .prim (.num 2))]]).component.pendingState
      = some [("b", .prim (.num 2))] ∧
    ((World.setStates 0 neverYield 0 ⟨⟨[], [], true⟩, Component.create [], []⟩
        [.object [("a", .prim (.num 1))], .object [("b", .prim (.num 2))]]).component.commitUpdate
        Component.shouldComponentUpdate false).map (fun r => r.1.state)
      = some [("b", .prim (.num 2))] ∧
    ((World.setStates 0 neverYield 0 (World.idle (Component.create []))
        [.object [("a", .prim (.num 1))], .object [("b", .prim (.num 2))]]).component.commitUpdate
        Component.shouldComponentUpdate false).map (fun r => r.1.state)
      = some [("b", .prim (.num 2))] ∧
    Obj.spread (Obj.spread ([] : Obj Val) [("a", .prim (.num 1))]) [("b", .prim (.num 2))]
      = [("a", .prim (.num 1)), ("b", .prim (.num 2))] := by
  refine ⟨rfl, rfl, rfl, rfl⟩

/-- C14 (evaluation at the failing input): on `new Component({})` with an idle queue,
`setState({count: 1})` stages the pending state `{count: 1}`, then `enqueueUpdate` throws
inside `flushBatchUpdates`; the Executor is not called and the state is still `{}`. -/
theorem C14_setState_throws_before_commit :
    (World.setState 0 neverYield 0 (World.idle (Component.create []))
        (.object [("count", .prim (.num 1))]) none).2 = .typeError ∧
    (World.setState 0 neverYield 0 (World.idle (Component.create []))
        (.object [("count", .prim (.num 1))]) none).1.component.state = [] ∧
    (World.setState 0 neverYield 0 (World.idle (Component.create []))
        (.object [("count", .prim (.num 1))]) none).1.component.pendingState
      = some [("count", .prim (.num 1))] ∧
    (World.setState 0 neverYield 0 (World.idle (Component.create []))
        (.object [("count", .prim (.num 1))]) none).1.ran = [] := by
  refine ⟨rfl, rfl, rfl, rfl⟩

/-- C15 (behaviour at the failing inputs): `shouldYield()` is true exactly when more than
5 ms have elapsed or the ambient priority is a number below the threshold 2. With no time
elapsed it is false at Low priority, in particular inside a `startTransition` scope, and
true at Immediate priority. -/
theorem C15_yield_compares_priority_numbers :
    (∀ (now : Int) (c : Concurrency), c.shouldYield now = true ↔
      (now - c.startTime > 5 ∨ ∃ p, c.currentPriority = some p ∧ p < c.priorityThreshold)) ∧
    (∀ t : Int, Concurrency.shouldYield t ⟨2, t, some LowPriority⟩ = false) ∧
    (∀ t : Int, Concurrency.shouldYield t ⟨2, t, some ImmediatePriority⟩ = true) ∧
    (startTransition (fun w => ((w.1, w.1.shouldYield 3), Res.ok ()))
        (Concurrency.initial, true)).1.2 = false := by
  refine ⟨?_, ?_, ?_, ?_⟩
  · intro now c
    cases hp : c.currentPriority with
    | none => simp [Concurrency.shouldYield, hp]
    | some p => simp [Concurrency.shouldYield, hp]
  · intro t
    simp [Concurrency.shouldYield, LowPriority]
  · intro t
    simp [Concurrency.shouldYield, ImmediatePriority]
  · simp [startTransition, Concurrency.shouldYield, Concurrency.initial, LowPriority]

/-- C16 (evaluation at the failing input): with three queued tasks and `shouldYield()`
false at the first check and true afterwards, `processUpdateQueue` runs the first task,
shifts the second task out of the queue before the check that ends the loop, and leaves
only the third task queued: the second task is neither run nor queued. -/
theorem C16_task_shifted_before_yield_is_dropped :
    (processUpdateQueue yieldAfterFirst
        ⟨[⟨1, false, 3, 0⟩, ⟨2, false, 3, 0⟩, ⟨3, false, 3, 0⟩], [], true⟩).ran
      = [⟨1, false, 3, 0⟩] ∧
    (processUpdateQueue yieldAfterFirst
        ⟨[⟨1, false, 3, 0⟩, ⟨2, false, 3, 0⟩, ⟨3, false, 3, 0⟩], [], true⟩).state.updateQueue
      = [⟨3, false, 3, 0⟩] ∧
    (processUpdateQueue yieldAfterFirst
        ⟨[⟨1, false, 3, 0⟩, ⟨2, false, 3, 0⟩, ⟨3, false, 3, 0⟩], [], true⟩).rescheduled
      = true := by
  decide

/-- C17 (behaviour at every input that starts with a pause): `patch` on a list whose first
entry is `PAUSE` changes nothing and schedules the same list again, so after any number of
idle callbacks the target is unchanged and the same list is still scheduled: the
operations after the `PAUSE` are never applied. In particular a `REMOVE` that follows a
`PAUSE` is still pending after 100 idle callbacks. -/
theorem C17_resumption_restarts_at_the_pause :
    (∀ (n : Nat) (dom : Dom) (index : Nat) (rest : List Patch),
      idleRuns n (patch dom (.PAUSE index :: rest)) = (dom, some (.PAUSE index :: rest))) ∧
    patch (container [bare "a" [], bare "b" []]) [.REMOVE 1, .PAUSE 0, .REMOVE 0]
      = (container [bare "a" []], some [.PAUSE 0, .REMOVE 0]) ∧
    idleRuns 100 (patch (container [bare "a" [], bare "b" []]) [.REMOVE 1, .PAUSE 0, .REMOVE 0])
      = (container [bare "a" []], some [.PAUSE 0, .REMOVE 0]) := by
  have h : ∀ (n : Nat) (dom : Dom) (index : Nat) (rest : List Patch),
      idleRuns n (patch dom (.PAUSE index :: rest)) = (dom, some (.PAUSE index :: rest)) := by
    intro n dom index rest
    have hp : patch dom (.PAUSE index :: rest) = (dom, some (.PAUSE index :: rest)) := by
      simp [patch, patchLoop]
    induction n with
    | zero => simp [idleRuns, hp]
    | succ n ih =>
      rw [hp, idleRuns, ← hp]
      exact ih
  have hp : patch (container [bare "a" [], bare "b" []]) [.REMOVE 1, .PAUSE 0, .REMOVE 0]
      = (container [bare "a" []], some [.PAUSE 0, .REMOVE 0]) := rfl
  have hp2 : patch (container [bare "a" []]) [.PAUSE 0, .REMOVE 0]
      = (container [bare "a" []], some [.PAUSE 0, .REMOVE 0]) := rfl
  have h100 := h 100 (container [bare "a" []]) 0 [.REMOVE 0]
  rw [hp2] at h100
  refine ⟨h, hp, ?_⟩
  rw [hp]
  exact h100

theorem step_hasError (now : Nat) (shouldYield : Nat → Bool) (self : Nat)
    (gate : Component → Obj Val → Obj Val → Bool)
    (rest : Component → Obj Val → Obj Val → Component × Res Unit) (w : World) (op : Op)
    (h : w.component.hasError = true) :
    (World.step now shouldYield self gate rest w op).component.hasError = true := by
  cases op with
  | setState p callback => simpa [World.step, World.setState, Component.stagePartialState] using h
  | forceUpdate callback => simpa [World.step, World.forceUpdate] using h
  | updateProps newProps => simpa [World.step, World.updateProps] using h
  | updateComponent forceUpdate =>
    simp [World.step, Component.updateComponent, Component.commitUpdate, h]

theorem steps_hasError (now : Nat) (shouldYield : Nat → Bool) (self : Nat)
    (gate : Component → Obj Val → Obj Val → Bool)
    (rest : Component → Obj Val → Obj Val → Component × Res Unit) (ops : List Op) (w : World)
    (h : w.component.hasError = true) :
    (ops.foldl (World.step now shouldYield self gate rest) w).component.hasError = true := by
  induction ops generalizing w with
  | nil => exact h
  | cons op tail ih => exact ih _ (step_hasError now shouldYield self gate rest w op h)

/-- C18 (amended): for an instance whose `componentDidCatch` is the method of `Component`,
after `componentDidCatch` the error flag of the instance is true; it is still
true after any later sequence of `setState`, `forceUpdate`, `__updateProps` and
`__updateComponent` calls; and on the instance so reached every `__updateComponent` call,
forced or not, returns the instance unchanged (props, state, pending props, pending state
and stored tree included) whatever the statements after the commit would do, so that
neither `render` nor `diff` is called. -/
theorem C18_error_flag_rejects_every_update (now : Nat) (shouldYield : Nat → Bool)
    (self : Nat) (gate : Component → Obj Val → Obj Val → Bool)
    (rest later : Component → Obj Val → Obj Val → Component × Res Unit)
    (scheduler : Scheduler) (ran : List Task) (c : Component) (ops : List Op)
    (forceUpdate : Bool) :
    c.componentDidCatch.hasError = true ∧
    (ops.foldl (World.step now shouldYield self gate rest)
      ⟨scheduler, c.componentDidCatch, ran⟩).component.hasError = true ∧
    (ops.foldl (World.step now shouldYield self gate rest)
      ⟨scheduler, c.componentDidCatch, ran⟩).component.updateComponent gate later forceUpdate
      = ((ops.foldl (World.step now shouldYield self gate rest)
          ⟨scheduler, c.componentDidCatch, ran⟩).component, .ok ()) := by
  have h0 : c.componentDidCatch.hasError = true := rfl
  have h1 := steps_hasError now shouldYield self gate rest ops
    ⟨scheduler, c.componentDidCatch, ran⟩ h0
  refine ⟨h0, h1, ?_⟩
  simp [Component.updateComponent, Component.commitUpdate, h1]

/-- C18 as stated fails for `Suspense`, whose `componentDidCatch` overrides the method of
`Component`. After it has caught a Promise the error flag is still false and the pending
state is `{hasError: true}`; the next `__updateComponent()`, not forced, passes the gate,
commits that state and goes on to the statements after the commit, so the state and the
pending state have changed. After it has caught another error, which it throws again, the
flag is false as well. -/
theorem C18_counterexample :
    (Suspense.componentDidCatch 0 neverYield 1 (World.idle (Suspense.create [])) true
      ).1.component.hasError = false ∧
    (Suspense.componentDidCatch 0 neverYield 1 (World.idle (Suspense.create [])) true
      ).1.component.pendingState = some [("hasError", .prim (.bool true))] ∧
    ((Suspense.componentDidCatch 0 neverYield 1 (World.idle (Suspense.create [])) true
      ).1.component.commitUpdate Component.shouldComponentUpdate false).isSome = true ∧
    ((Suspense.componentDidCatch 0 neverYield 1 (World.idle (Suspense.create [])) true
      ).1.component.updateComponent Component.shouldComponentUpdate
        (fun c _ _ => (c, .ok ())) false).1.state = [("hasError", .prim (.bool true))] ∧
    ((Suspense.componentDidCatch 0 neverYield 1 (World.idle (Suspense.create [])) true
      ).1.component.updateComponent Component.shouldComponentUpdate
        (fun c _ _ => (c, .ok ())) false).1.pendingState = none ∧
    (Suspense.create []).state = [("hasError", .prim (.bool false))] ∧
    (Suspense.componentDidCatch 0 neverYield 1 (World.idle (Suspense.create [])) false
      ).2 = .typeError ∧
    (Suspense.componentDidCatch 0 neverYield 1 (World.idle (Suspense.create [])) false
      ).1.component.hasError = false :=
  ⟨rfl, rfl, rfl, rfl, rfl, rfl, rfl, rfl⟩

theorem slotAt_lt {α : Type} (arr : List (Option α)) (i : Nat) (x : α)
    (h : slotAt arr i = some x) : i < arr.length := by
  by_contra hlt
  have : arr.getD i none = none := by
    simp [List.getD, List.getElem?_eq_none (Nat.le_of_not_lt hlt)]
  rw [slotAt, this] at h
  cases h

theorem slotAt_slotSet {α : Type} (arr : List (Option α)) (i : Nat) (x : α)
    (h : i < arr.length) : slotAt (slotSet arr i x) i = some x := by
  simp [slotAt, slotSet, h, List.getD]

theorem pushAction_slot (h : HookStore) (i : Nat) (s : Val)
    (r : Option (Val → Action → Val)) (q : List Action) (a : Action)
    (hs : slotAt h.hooks i = some (.stateful s r q)) :
    slotAt (pushAction h i a).hooks i = some (.stateful s r (q ++ [a])) := by
  have hlt := slotAt_lt _ _ _ hs
  simp only [pushAction, hs]
  exact slotAt_slotSet _ _ _ hlt

theorem pushActions_slot (i : Nat) (s : Val) (r : Option (Val → Action → Val))
    (actions : List Action) (h : HookStore) (q : List Action)
    (hs : slotAt h.hooks i = some (.stateful s r q)) :
    slotAt (actions.foldl (fun g a => pushAction g i a) h).hooks i
      = some (.stateful s r (q ++ actions)) := by
  induction actions generalizing h q with
  | nil => simpa using hs
  | cons a rest ih =>
    have := ih (pushAction h i a) (q ++ [a]) (pushAction_slot h i s r q a hs)
    simpa using this

theorem useState_slot (g : HookStore) (i : Nat) (s : Val) (r : Option (Val → Action → Val))
    (q : List Action) (init : Val) (hs : slotAt g.hooks i = some (.stateful s r q)) :
    (useState (g.atIndex i) init).1 = .ok (q.foldl applyAction s) ∧
    slotAt (useState (g.atIndex i) init).2.hooks i
      = some (.stateful (q.foldl applyAction s) r []) := by
  have hlt := slotAt_lt _ _ _ hs
  simp only [useState, HookStore.atIndex, hs, true_and]
  exact slotAt_slotSet _ _ _ hlt

theorem useReducer_slot (g : HookStore) (i : Nat) (s : Val) (stored : Val → Action → Val)
    (q : List Action) (reducer : Val → Action → Val) (init : Val)
    (hs : slotAt g.hooks i = some (.stateful s (some stored) q)) :
    (useReducer (g.atIndex i) reducer init).1 = .ok (q.foldl stored s) ∧
    slotAt (useReducer (g.atIndex i) reducer init).2.hooks i
      = some (.stateful (q.foldl stored s) (some stored) []) := by
  have hlt := slotAt_lt _ _ _ hs
  simp only [useReducer, HookStore.atIndex, hs, true_and]
  exact slotAt_slotSet _ _ _ hlt

/-- With the rendering instance as receiver, `HooksDispatcher.useState` at a slot holding
state `s` whose setter queued `a1..an` returns the left fold of the actions over `s`, leaves
the folded state and an empty queue in the slot, and a further call returns the same
state. -/
theorem useState_folds_queue_once (h : HookStore) (i : Nat) (s : Val)
    (actions : List Action) (init : Val)
    (hs : slotAt h.hooks i = some (.stateful s none [])) :
    (useState ((actions.foldl (fun g a => pushAction g i a) h).atIndex i) init).1
      = .ok (actions.foldl applyAction s) ∧
    slotAt (useState ((actions.foldl (fun g a => pushAction g i a) h).atIndex i) init).2.hooks i
      = some (.stateful (actions.foldl applyAction s) none []) ∧
    (useState ((useState ((actions.foldl (fun g a => pushAction g i a) h).atIndex i)
        init).2.atIndex i) init).1
      = .ok (actions.foldl applyAction s) := by
  have h1 := pushActions_slot i s none actions h [] hs
  simp only [List.nil_append] at h1
  obtain ⟨a1, a2⟩ := useState_slot _ i s none actions init h1
  obtain ⟨a3, _⟩ := useState_slot _ i _ none [] init a2
  exact ⟨a1, a2, a3⟩

/-- With the rendering instance as receiver, `HooksDispatcher.useReducer` at a slot holding
state `t` and the reducer `stored` whose dispatch queued `b1..bm` returns the left fold of
`stored` over `t`, leaves the folded state and an empty queue in the slot, and a further
call returns the same state. -/
theorem useReducer_folds_queue_once (h : HookStore) (j : Nat) (t : Val)
    (stored reducer : Val → Action → Val) (actions : List Action) (init : Val)
    (hr : slotAt h.hooks j = some (.stateful t (some stored) [])) :
    (useReducer ((actions.foldl (fun g a => pushAction g j a) h).atIndex j) reducer init).1
      = .ok (actions.foldl stored t) ∧
    slotAt (useReducer ((actions.foldl (fun g a => pushAction g j a) h).atIndex j)
        reducer init).2.hooks j
      = some (.stateful (actions.foldl stored t) (some stored) []) ∧
    (useReducer ((useReducer ((actions.foldl (fun g a => pushAction g j a) h).atIndex j)
        reducer init).2.atIndex j) reducer init).1
      = .ok (actions.foldl stored t) := by
  have h2 := pushActions_slot j t (some stored) actions h [] hr
  simp only [List.nil_append] at h2
  obtain ⟨b1, b2⟩ := useReducer_slot _ j t stored actions reducer init h2
  obtain ⟨b3, _⟩ := useReducer_slot _ j _ stored [] reducer init b2
  exact ⟨b1, b2, b3⟩

/-- C19 (evaluation at the failing input): the hook call of a render, `this.useState(init)`,
throws for every state of the hook fields, whether or not a dispatcher is installed, and
leaves the hook fields as they were. At a `useState` slot holding 0 whose queue holds the
actions `n => n + 1` and `5`, the call therefore returns no state and the queue still holds
both actions, where the same function called with the instance as receiver returns the
fold 5 and empties the queue. -/
theorem C19_render_hook_call_throws (dispatcherSet : Bool) (h : HookStore) (init : Val) :
    Component.useState dispatcherSet h init = (.typeError, h) ∧
    slotAt (([Action.update addOne, .replace (.prim (.num 5))].foldl
        (fun g a => pushAction g 0 a) twoStateHooks).atIndex 0).hooks 0
      = some (.stateful (.prim (.num 0)) none [.update addOne, .replace (.prim (.num 5))]) ∧
    (Component.useState true (([Action.update addOne, .replace (.prim (.num 5))].foldl
        (fun g a => pushAction g 0 a) twoStateHooks).atIndex 0) (.prim (.num 0))).1
      = .typeError ∧
    slotAt (Component.useState true (([Action.update addOne, .replace (.prim (.num 5))].foldl
        (fun g a => pushAction g 0 a) twoStateHooks).atIndex 0) (.prim (.num 0))).2.hooks 0
      = some (.stateful (.prim (.num 0)) none [.update addOne, .replace (.prim (.num 5))]) ∧
    (HooksDispatcher.useState .renderingInstance
        (([Action.update addOne, .replace (.prim (.num 5))].foldl
          (fun g a => pushAction g 0 a) twoStateHooks).atIndex 0) (.prim (.num 0))).1
      = .ok (.prim (.num 5)) := by
  refine ⟨?_, rfl, rfl, rfl, rfl⟩
  cases dispatcherSet <;> rfl

/-- C20 (evaluation at the failing inputs): a layout effect called again with the same
dependency list `[1]` is left in `__layoutEffects`, so the flush of that update cycle
calls its cleanup and its setup again; an effect of `useEffect` called again with the new
dependency list `[2]` has the new setup called during the render without the previous
cleanup (function 11) being called, and its slot still records the dependency list
`[1]`. -/
theorem C20_effects_rerun_and_skip_cleanup :
    afterLayoutCycle.effects = [⟨1, some [.prim (.num 1)], some 11⟩] ∧
    (useLayoutEffect (resetHookIndex afterLayoutCycle) 1 (some [.prim (.num 1)])).2 = [] ∧
    (flushEffects cleanupPlusTen
      (useLayoutEffect (resetHookIndex afterLayoutCycle) 1 (some [.prim (.num 1)])).1).2.1
      = [.cleanup 11, .setup 1] ∧
    afterEffectCycle.effects = [⟨1, some [.prim (.num 1)], some 11⟩] ∧
    (useEffect cleanupPlusTen (resetHookIndex afterEffectCycle) 2
      (some [.prim (.num 2)])).2 = [.setup 2] ∧
    (useEffect cleanupPlusTen (resetHookIndex afterEffectCycle) 2
      (some [.prim (.num 2)])).1.effects = [⟨1, some [.prim (.num 1)], some 12⟩] ∧
    (flushEffects cleanupPlusTen
      (useEffect cleanupPlusTen (resetHookIndex afterEffectCycle) 2
        (some [.prim (.num 2)])).1).2 = ([], false) := by
  refine ⟨rfl, rfl, rfl, rfl, rfl, rfl, rfl⟩

/-! ## Lemmas on the frame of diff, the time order of the queue and termination -/

theorem Patch.isMove_withIndex (i : Nat) (p : Patch) : (p.withIndex i).isMove = p.isMove := by
  cases p <;> rfl

theorem set_getD_same (l : List VNode) (i : Nat) : l.set i (l.getD i .absent) = l := by
  by_cases h : i < l.length
  · have hget : l.getD i .absent = l.get ⟨i, h⟩ := by simp [List.getD, h]
    rw [hget]
    exact set_getElem_same l i h
  · exact List.set_eq_of_length_le (by omega)

theorem diffChildrenLoop_frame
    (recur : Nat → VNode → VNode → Res (List Patch × VNode × Nat)) (m : Obj Nat)
    (news : List VNode)
    (hrec : ∀ clock o n ps o1 c1, recur clock o n = .ok (ps, o1, c1) →
      (∀ p ∈ ps, p.isMove = false) → o1 = o) :
    ∀ (fuel clock : Nat) (olds : List VNode) (i j : Nat) (patches ps : List Patch)
      (olds1 : List VNode) (c1 : Nat),
      diffChildrenLoop recur m news fuel clock olds i j patches = .ok (ps, olds1, c1) →
      (∀ p ∈ patches, p ∈ ps) ∧ ((∀ p ∈ ps, p.isMove = false) → olds1 = olds) := by
  intro fuel
  induction fuel with
  | zero =>
    intro clock olds i j patches ps olds1 c1 h
    simp [diffChildrenLoop] at h
  | succ f ih =>
    intro clock olds i j patches ps olds1 c1 h
    rw [diffChildrenLoop] at h
    split at h
    · simp only at h
      split at h
      · obtain ⟨h1, h2⟩ := ih _ _ _ _ _ _ _ _ h
        exact ⟨fun p hp => h1 p (List.mem_append_left _ hp), h2⟩
      · split at h
        · obtain ⟨h1, h2⟩ := ih _ _ _ _ _ _ _ _ h
          exact ⟨fun p hp => h1 p (List.mem_append_left _ hp), h2⟩
        · split at h
          · simp at h
          · simp at h
          · split at h
            · simp at h
            · simp at h
            · rename_i childPatches oldChildAfter clockAfter hr
              obtain ⟨h1, h2⟩ := ih _ _ _ _ _ _ _ _ h
              refine ⟨fun p hp => h1 p (List.mem_append_left _ hp), fun hno => ?_⟩
              have hchild : ∀ p ∈ childPatches, p.isMove = false := by
                intro p hp
                rw [← Patch.isMove_withIndex j p]
                exact hno _ (h1 _ (List.mem_append_right _ (List.mem_map_of_mem _ hp)))
              rw [h2 hno, hrec _ _ _ _ _ _ hr hchild]
              exact set_getD_same olds j
          · split at h
            · split at h
              · simp at h
              · obtain ⟨h1, h2⟩ := ih _ _ _ _ _ _ _ _ h
                exact ⟨fun p hp => h1 p (List.mem_append_left _ hp), h2⟩
            · split at h
              · simp at h
              · simp at h
              · obtain ⟨h1, h2⟩ := ih _ _ _ _ _ _ _ _ h
                exact ⟨fun p hp => h1 p (List.mem_append_left _ hp), h2⟩
              · obtain ⟨h1, h2⟩ := ih _ _ _ _ _ _ _ _ h
                refine ⟨fun p hp => h1 p (List.mem_append_left _ hp), fun hno => ?_⟩
                have := hno _ (h1 _ (List.mem_append_right _ (List.mem_singleton_self _)))
                simp [Patch.isMove] at this
    · simp only [Res.ok.injEq, Prod.mk.injEq] at h
      obtain ⟨rfl, rfl, _⟩ := h
      exact ⟨fun p hp => hp, fun _ => rfl⟩

theorem diffChildren_frame
    (recur : Nat → VNode → VNode → Res (List Patch × VNode × Nat))
    (hrec : ∀ clock o n ps o1 c1, recur clock o n = .ok (ps, o1, c1) →
      (∀ p ∈ ps, p.isMove = false) → o1 = o)
    (fuel clock : Nat) (oc nc : Option (List VNode)) (ps : List Patch)
    (olds1 : List VNode) (c1 : Nat)
    (h : diffChildren recur fuel clock oc nc = .ok (ps, olds1, c1)) :
    ∃ olds, oc = some olds ∧ ((∀ p ∈ ps, p.isMove = false) → olds1 = olds) := by
  cases oc with
  | none => simp [diffChildren] at h
  | some olds =>
    cases nc with
    | none => simp [diffChildren] at h
    | some news =>
      refine ⟨olds, rfl, ?_⟩
      simp only [diffChildren] at h
      split at h
      · exact (diffChildrenLoop_frame recur _ news hrec _ _ _ _ _ _ _ _ _ h).2
      · simp at h
      · simp at h

theorem VNode.withChildren_childrenOf (o : VNode) (cs : List VNode)
    (h : o.childrenOf = some cs) : o.withChildren cs = o := by
  cases o with
  | absent => rfl
  | text s => rfl
  | elem t p ch =>
    simp only [VNode.childrenOf] at h
    subst h
    rfl

theorem diffRun_frame (shouldYield : Nat → Bool) :
    ∀ (fuel clock : Nat) (o n : VNode) (ps : List Patch) (o1 : VNode) (c1 : Nat),
      diffRun fuel shouldYield clock o n = .ok (ps, o1, c1) →
      (∀ p ∈ ps, p.isMove = false) → o1 = o := by
  intro fuel
  induction fuel with
  | zero =>
    intro clock o n ps o1 c1 h
    simp [diffRun] at h
  | succ f ih =>
    intro clock o n ps o1 c1 h hno
    rw [diffRun, dfsWalk] at h
    split at h
    · simp only [Res.ok.injEq, Prod.mk.injEq] at h
      exact h.2.1.symm
    · simp only at h
      split at h
      · simp only [Res.ok.injEq, Prod.mk.injEq] at h
        exact h.2.1.symm
      · split at h
        · simp only [Res.ok.injEq, Prod.mk.injEq] at h
          exact h.2.1.symm
        · split at h
          · simp only [Res.ok.injEq, Prod.mk.injEq] at h
            exact h.2.1.symm
          · split at h
            · simp only [Res.ok.injEq, Prod.mk.injEq] at h
              exact h.2.1.symm
            · split at h
              · simp at h
              · simp at h
              · split at h
                · simp at h
                · simp at h
                · rename_i propsPatches _ childrenPatches oldChildren clockAfter hch
                  simp only [Res.ok.injEq, Prod.mk.injEq] at h
                  obtain ⟨hps, ho, _⟩ := h
                  subst hps ho
                  obtain ⟨olds, ho, hsame⟩ := diffChildren_frame (diffRun f shouldYield)
                    (fun clock o n ps o1 c1 h hno => ih clock o n ps o1 c1 h hno)
                    _ _ _ _ _ _ _ hch
                  rw [hsame (fun p hp => hno p (List.mem_append_right _ hp))]
                  exact VNode.withChildren_childrenOf o olds ho

theorem raiseExisting_startTimes (component priority : Nat) (q : List Task) :
    (raiseExisting component priority q).map Task.startTime = q.map Task.startTime := by
  induction q with
  | nil => rfl
  | cons t rest ih =>
    simp only [raiseExisting]
    by_cases h : t.component = component
    · simp only [h, if_true]
      by_cases hp : priority > t.priority
      · simp [hp]
      · simp [hp]
    · simp only [h, if_false, List.map_cons, ih]

theorem mergeTimed_startTimes (batch : List (Request × Nat)) (q : List Task)
    (h : (q.map Task.startTime ++ batch.map Prod.snd).Pairwise (· ≤ ·)) :
    ((mergeTimed q batch).map Task.startTime).Pairwise (· ≤ ·) := by
  induction batch generalizing q with
  | nil => simpa [mergeTimed] using h
  | cons rt rest ih =>
    simp only [mergeTimed, List.foldl_cons]
    apply ih
    simp only [mergeRequest]
    by_cases hany : q.any (fun t => decide (t.component = rt.1.component)) = true
    · simp only [hany, if_true, raiseExisting_startTimes]
      refine List.Pairwise.sublist ?_ h
      exact List.Sublist.append_left (List.sublist_cons_self _ _) _
    · simp only [hany, Bool.false_eq_true, if_false, List.map_append, List.map_cons,
        List.map_nil, List.append_assoc, List.singleton_append]
      simpa using h

theorem orderedInsert_time_order (a : Task) (l : List Task)
    (hl : l.Pairwise (fun x y => x.priority = y.priority → x.startTime ≤ y.startTime))
    (ha : ∀ b ∈ l, a.startTime ≤ b.startTime) :
    (l.orderedInsert (fun x y => y.priority ≤ x.priority) a).Pairwise
      (fun x y => x.priority = y.priority → x.startTime ≤ y.startTime) := by
  induction l with
  | nil => simp
  | cons b rest ih =>
    simp only [List.orderedInsert]
    have hb := List.pairwise_cons.mp hl
    by_cases hr : b.priority ≤ a.priority
    · simp only [hr, if_true]
      exact List.pairwise_cons.mpr ⟨fun x hx _ => ha x hx, hl⟩
    · simp only [hr, if_false]
      refine List.pairwise_cons.mpr ⟨?_, ih hb.2 (fun x hx => ha x (List.mem_cons_of_mem _ hx))⟩
      intro x hx
      rcases (List.mem_orderedInsert _).mp hx with rfl | hx
      · intro heq
        exact absurd (Nat.le_of_eq heq) hr
      · exact hb.1 x hx

theorem sortQueue_time_order (l : List Task)
    (hl : l.Pairwise (fun x y => x.startTime ≤ y.startTime)) :
    (sortQueue l).Pairwise
      (fun x y => x.priority = y.priority → x.startTime ≤ y.startTime) := by
  induction l with
  | nil => simp [sortQueue]
  | cons a rest ih =>
    have ha := List.pairwise_cons.mp hl
    simp only [sortQueue, List.insertionSort] at ih ⊢
    refine orderedInsert_time_order a _ (ih ha.2) ?_
    intro b hb
    exact ha.1 b ((List.perm_insertionSort _ rest).mem_iff.mp hb)

theorem processUpdateQueue_flag (shouldYield : Nat → Bool) (s : Scheduler)
    (h : (processUpdateQueue shouldYield s).state.updateQueue ≠ []) :
    (processUpdateQueue shouldYield s).state.isUpdating = s.isUpdating := by
  unfold processUpdateQueue at h ⊢
  simp only at h ⊢
  split
  · rfl
  · rename_i hlen
    rw [if_neg hlen] at h
    simp only [gt_iff_lt, List.length_pos, ne_eq, not_not] at hlen
    exact absurd hlen h

theorem reachable_idle_queue_empty (s : Scheduler) (h : Reachable s) :
    s.isUpdating = false → s.updateQueue = [] := by
  induction h with
  | initial => intro _; rfl
  | enqueue s now shouldYield r _ _ =>
    intro hidle
    unfold enqueueUpdate at hidle
    by_cases hu : s.isUpdating = true
    · simp [hu] at hidle
    · simp [hu, flushBatchUpdates] at hidle
  | process s shouldYield _ ih =>
    intro hidle
    by_contra hq
    rw [processUpdateQueue_flag shouldYield s hq] at hidle
    have hsub := processUpdateQueue_queue_sublist shouldYield s
    rw [ih hidle] at hsub
    exact hq (List.sublist_nil.mp hsub)
  | shift s _ ih =>
    intro hidle
    have := ih hidle
    simp [this]

theorem mergeBatch_eq_mergeBatchTimed (now : Nat) (q : List Task) (batch : List Request) :
    mergeBatch now q batch = mergeBatchTimed q (batch.map fun r => (r, now)) := by
  simp only [mergeBatch, mergeBatchTimed, mergeTimed, List.foldl_map]

theorem Res.EndsWith.ne_outOfFuel {α : Type} {P : α → Prop} {r : Res α}
    (h : Res.EndsWith P r) : r ≠ .outOfFuel := by
  intro hr
  rw [hr] at h
  exact h

theorem Res.EndsWith.mono {α : Type} {P Q : α → Prop} {r : Res α}
    (h : Res.EndsWith P r) (hpq : ∀ a, P a → Q a) : Res.EndsWith Q r := by
  cases r with
  | ok a => exact hpq a h
  | typeError => trivial
  | outOfFuel => exact h

theorem Res.EndsWith.bind {α β : Type} {r : Res α} {f : α → Res β}
    (h : Res.EndsWith (fun _ => True) r) (hf : ∀ a, Res.EndsWith (fun _ => True) (f a)) :
    Res.EndsWith (fun _ => True) (r.bind f) := by
  cases r with
  | ok a => exact hf a
  | typeError => trivial
  | outOfFuel => exact h

theorem Val.ownKeys_ends (v : Val) : Res.EndsWith (fun _ => True) (Val.ownKeys v) := by
  unfold Val.ownKeys
  split <;> trivial

theorem Val.field_ends (v : Val) (k : String) :
    Res.EndsWith (fun _ => True) (Val.field v k) := by
  unfold Val.field
  split
  · trivial
  · trivial
  · split
    · trivial
    · split <;> trivial
  · trivial
  · trivial
  · trivial
  · trivial

theorem Val.member_ends (v : Val) (k : String) :
    Res.EndsWith (fun _ => True) (Val.member v k) := by
  unfold Val.member
  split
  · trivial
  · trivial
  · split
    · trivial
    · split <;> trivial
  · trivial
  · trivial
  · split <;> trivial
  · trivial

theorem Val.hasField_ends (v : Val) (k : String) :
    Res.EndsWith (fun _ => True) (Val.hasField v k) := by
  unfold Val.hasField
  split <;> trivial

theorem styleChanged_ends (oldStyle newStyle : Val) (keys : List String) (acc : Obj Prim) :
    Res.EndsWith (fun _ => True) (styleChanged oldStyle newStyle keys acc) := by
  induction keys generalizing acc with
  | nil => trivial
  | cons k rest ih =>
    rw [styleChanged]
    refine Res.EndsWith.bind (Val.member_ends _ _) (fun ov => ?_)
    refine Res.EndsWith.bind (Val.field_ends _ _) (fun nv => ?_)
    split
    · exact ih _
    · exact ih _

theorem styleRemoved_ends (newStyle : Val) (keys : List String) (acc : Obj Prim) :
    Res.EndsWith (fun _ => True) (styleRemoved newStyle keys acc) := by
  induction keys generalizing acc with
  | nil => trivial
  | cons k rest ih =>
    rw [styleRemoved]
    refine Res.EndsWith.bind (Val.hasField_ends _ _) (fun present => ?_)
    split
    · exact ih _
    · exact ih _

theorem stylePatches_ends (oldStyle newStyle : Val) :
    Res.EndsWith (fun _ => True) (stylePatches oldStyle newStyle) := by
  unfold stylePatches
  refine Res.EndsWith.bind (Val.ownKeys_ends _) (fun newKeys => ?_)
  refine Res.EndsWith.bind (styleChanged_ends _ _ _ _) (fun acc => ?_)
  refine Res.EndsWith.bind (Val.ownKeys_ends _) (fun oldKeys => ?_)
  exact styleRemoved_ends _ _ _

theorem diffPropsChanged_ends (oldProps newProps : Props) (keys : List String)
    (patches : Props) :
    Res.EndsWith (fun _ => True) (diffPropsChanged oldProps newProps keys patches) := by
  induction keys generalizing patches with
  | nil => trivial
  | cons k rest ih =>
    rw [diffPropsChanged]
    split
    · exact ih _
    · split
      · exact Res.EndsWith.bind (stylePatches_ends _ _) (fun sp => ih _)
      · exact ih _

theorem diffProps_ends (oldProps newProps : Option Props) :
    Res.EndsWith (fun _ => True) (diffProps oldProps newProps) := by
  unfold diffProps
  split
  · exact diffPropsChanged_ends _ _ _ _
  · trivial

theorem VNode.truthy_of_allRecords (v : VNode) (h : v.allRecords = true) :
    v.truthy = true := by
  cases v with
  | absent => simp [VNode.allRecords] at h
  | text s => simp [VNode.allRecords] at h
  | elem t p ch => rfl

theorem VNode.allRecordsList_iff (cs : List VNode) :
    VNode.allRecordsList cs = true ↔ ∀ c ∈ cs, c.allRecords = true := by
  induction cs with
  | nil => simp [VNode.allRecordsList]
  | cons c rest ih => simp [VNode.allRecordsList, ih]

theorem VNode.sizeList_eq_sum (cs : List VNode) :
    VNode.sizeList cs = (cs.map VNode.size).sum := by
  induction cs with
  | nil => rfl
  | cons c rest ih => simp [VNode.sizeList, ih]

theorem VNode.sizeList_perm {l1 l2 : List VNode} (h : l1.Perm l2) :
    VNode.sizeList l1 = VNode.sizeList l2 := by
  rw [VNode.sizeList_eq_sum, VNode.sizeList_eq_sum]
  exact (h.map VNode.size).sum_eq

theorem VNode.sizeList_set (l : List VNode) (j : Nat) (x : VNode) (hj : j < l.length)
    (hx : x.size = (l.getD j .absent).size) :
    VNode.sizeList (l.set j x) = VNode.sizeList l := by
  induction l generalizing j with
  | nil => simp at hj
  | cons a rest ih =>
    cases j with
    | zero =>
      simp only [List.set, VNode.sizeList]
      simp only [List.getD_cons_zero] at hx
      rw [hx]
    | succ j =>
      simp only [List.set, VNode.sizeList]
      rw [ih j (by simpa using hj) (by simpa using hx)]

theorem splice_perm (l : List VNode) (m j : Nat) (hm : m < l.length) :
    (spliceIn (spliceOut l m) j (l.getD m .absent)).Perm l := by
  have hget : l.getD m .absent = l[m] := by simp [List.getD, hm]
  have h1 : (spliceIn (spliceOut l m) j (l.getD m .absent)).Perm
      (l.getD m .absent :: spliceOut l m) := by
    unfold spliceIn
    refine List.perm_middle.trans ?_
    rw [List.take_append_drop]
  refine h1.trans ?_
  unfold spliceOut
  rw [hget]
  refine List.perm_middle.symm.trans ?_
  rw [← List.drop_eq_getElem_cons hm, List.take_append_drop]
theorem getD_absent_of_le (l : List VNode) (i : Nat) (h : l.length ≤ i) :
    l.getD i .absent = .absent := by
  simp [List.getD, List.getElem?_eq_none h]

theorem isSameNode_absent_left (n : VNode) : isSameNode .absent n = .typeError := by
  cases n <;> rfl

theorem diffChildrenLoop_ends
    (recur : Nat → VNode → VNode → Res (List Patch × VNode × Nat)) (m : Obj Nat)
    (news : List VNode) (B : Nat)
    (hnews : ∀ c ∈ news, c.allRecords = true)
    (hrec : ∀ clock o n, o.allRecords = true → n.allRecords = true → o.size + n.size ≤ B →
      Res.EndsWith (fun r => r.2.1.allRecords = true ∧ r.2.1.size = o.size)
        (recur clock o n)) :
    ∀ (k fuel clock : Nat) (olds : List VNode) (i j : Nat) (patches : List Patch),
      (∀ c ∈ olds, c.allRecords = true) →
      VNode.sizeList olds + VNode.sizeList news ≤ B →
      (news.length - i) + (olds.length - j) ≤ k → k + 1 ≤ fuel →
      Res.EndsWith (fun r => (∀ c ∈ r.2.1, c.allRecords = true) ∧
          VNode.sizeList r.2.1 = VNode.sizeList olds ∧ r.2.1.length = olds.length)
        (diffChildrenLoop recur m news fuel clock olds i j patches) := by
  intro k
  induction k with
  | zero =>
    intro fuel clock olds i j patches holds _ hk hfuel
    obtain ⟨f, rfl⟩ : ∃ f, fuel = f + 1 := ⟨fuel - 1, by omega⟩
    have hc : ¬ (i < news.length ∨ j < olds.length) := by omega
    rw [diffChildrenLoop, if_neg hc]
    exact ⟨holds, rfl, rfl⟩
  | succ k ih =>
    intro fuel clock olds i j patches holds hB hk hfuel
    obtain ⟨f, rfl⟩ : ∃ f, fuel = f + 1 := ⟨fuel - 1, by omega⟩
    rw [diffChildrenLoop]
    by_cases hc : i < news.length ∨ j < olds.length
    · rw [if_pos hc]
      simp only
      by_cases hj : j < olds.length
      · have hoget : olds.getD j .absent = olds[j] := by simp [List.getD, hj]
        have homem : olds[j] ∈ olds := List.getElem_mem _
        have hoR := holds _ homem
        have hoT := VNode.truthy_of_allRecords _ hoR
        rw [hoget]
        by_cases hi : i < news.length
        · have hnget : news.getD i .absent = news[i] := by simp [List.getD, hi]
          have hnmem : news[i] ∈ news := List.getElem_mem _
          have hnR := hnews _ hnmem
          have hnT := VNode.truthy_of_allRecords _ hnR
          rw [hnget]
          simp only [hoT, hnT, Bool.not_true, Bool.false_eq_true, if_false]
          rw [isSameNode_of_truthy _ _ hoT hnT]
          have hreplace : ∀ ps, Res.EndsWith (fun r => (∀ c ∈ r.2.1, c.allRecords = true) ∧
              VNode.sizeList r.2.1 = VNode.sizeList olds ∧ r.2.1.length = olds.length)
              (diffChildrenLoop recur m news f clock olds (i + 1) (j + 1) ps) :=
            fun ps => ih f clock olds (i + 1) (j + 1) ps holds hB (by omega) (by omega)
          cases hb : (decide (olds[j].typeOf = news[i].typeOf) &&
              Val.strictEq olds[j].keyOf news[i].keyOf) with
          | true =>
            simp only
            have ho1 := VNode.size_le_sizeList olds _ homem
            have hn1 := VNode.size_le_sizeList news _ hnmem
            have hr := hrec clock olds[j] news[i] hoR hnR (by omega)
            cases hrr : recur clock olds[j] news[i] with
            | typeError => trivial
            | outOfFuel => rw [hrr] at hr; exact hr.elim
            | ok r =>
              obtain ⟨cp, o1, c1⟩ := r
              rw [hrr] at hr
              simp only
              have hset : ∀ c ∈ olds.set j o1, c.allRecords = true := by
                intro c hc1
                rcases List.mem_or_eq_of_mem_set hc1 with h | h
                · exact holds c h
                · rw [h]; exact hr.1
              have hsize : VNode.sizeList (olds.set j o1) = VNode.sizeList olds :=
                VNode.sizeList_set olds j o1 hj (by rw [hoget]; exact hr.2)
              refine (ih f c1 (olds.set j o1) (i + 1) (j + 1) _ hset (by omega)
                (by simp only [List.length_set]; omega) (by omega)).mono ?_
              intro r hr1
              refine ⟨hr1.1, hr1.2.1.trans hsize, ?_⟩
              rw [hr1.2.2, List.length_set]
          | false =>
            simp only
            cases hg : Obj.get? m news[i].keyOf.keyName with
            | none =>
              simp only
              split
              · trivial
              · exact hreplace _
            | some idx =>
              simp only
              by_cases hidx : idx < olds.length
              · have hmget : olds.getD idx .absent = olds[idx] := by simp [List.getD, hidx]
                have hmT := VNode.truthy_of_allRecords _ (holds _ (List.getElem_mem hidx))
                rw [hmget, isSameNode_of_truthy _ _ hmT hnT]
                cases hb2 : (decide (olds[idx].typeOf = news[i].typeOf) &&
                    Val.strictEq olds[idx].keyOf news[i].keyOf) with
                | false => exact hreplace _
                | true =>
                  simp only
                  have hperm := splice_perm olds idx j hidx
                  rw [hmget] at hperm
                  refine (ih f clock _ (i + 1) j _
                    (fun c hc1 => holds c (hperm.mem_iff.mp hc1))
                    (by rw [VNode.sizeList_perm hperm]; exact hB)
                    (by rw [hperm.length_eq]; omega) (by omega)).mono ?_
                  intro r hr1
                  refine ⟨hr1.1, hr1.2.1.trans (VNode.sizeList_perm hperm), ?_⟩
                  rw [hr1.2.2, hperm.length_eq]
              · rw [getD_absent_of_le olds idx (by omega), isSameNode_absent_left]
                trivial
        · rw [getD_absent_of_le news i (by omega)]
          have hA : VNode.absent.truthy = false := rfl
          simp only [hoT, hA, Bool.not_true, Bool.false_eq_true, if_false,
            Bool.not_false, if_true]
          exact ih f clock olds i (j + 1) _ holds hB (by omega) (by omega)
      · have hi : i < news.length := by omega
        rw [getD_absent_of_le olds j (by omega)]
        simp only [VNode.truthy, Bool.not_false, if_true]
        exact ih f clock olds (i + 1) j _ holds hB (by omega) (by omega)
    · rw [if_neg hc]
      exact ⟨holds, rfl, rfl⟩
theorem diffChildren_ends
    (recur : Nat → VNode → VNode → Res (List Patch × VNode × Nat)) (f : Nat)
    (olds news : List VNode)
    (holds : ∀ c ∈ olds, c.allRecords = true) (hnews : ∀ c ∈ news, c.allRecords = true)
    (hrec : ∀ clock o n, o.allRecords = true → n.allRecords = true → o.size + n.size ≤ f →
      Res.EndsWith (fun r => r.2.1.allRecords = true ∧ r.2.1.size = o.size)
        (recur clock o n))
    (hsize : VNode.sizeList olds + VNode.sizeList news + 1 ≤ f) (clock : Nat) :
    Res.EndsWith (fun r => (∀ c ∈ r.2.1, c.allRecords = true) ∧
        VNode.sizeList r.2.1 = VNode.sizeList olds ∧ r.2.1.length = olds.length)
      (diffChildren recur f clock (some olds) (some news)) := by
  obtain ⟨m, hm⟩ := buildKeyIndexMap_ok olds 0 []
    (fun c hc => VNode.truthy_of_allRecords c (holds c hc))
  have h1 := VNode.length_le_sizeList olds
  have h2 := VNode.length_le_sizeList news
  simp only [diffChildren, hm]
  exact diffChildrenLoop_ends recur m news f hnews hrec (news.length + olds.length) f clock
    olds 0 0 [] holds (by omega) (by omega) (by omega)

theorem diffRun_ends (shouldYield : Nat → Bool) :
    ∀ (fuel clock : Nat) (o n : VNode), o.allRecords = true → n.allRecords = true →
      o.size + n.size ≤ fuel →
      Res.EndsWith (fun r => r.2.1.allRecords = true ∧ r.2.1.size = o.size ∧
          r.2.1.childrenOf.map List.length = o.childrenOf.map List.length)
        (diffRun fuel shouldYield clock o n) := by
  intro fuel
  induction fuel with
  | zero =>
    intro clock o n _ _ h
    have := VNode.size_pos o
    omega
  | succ f ih =>
    intro clock o n ho hn hsize
    rw [diffRun, dfsWalk]
    split
    · exact ⟨ho, rfl, rfl⟩
    · simp only
      split
      · exact ⟨ho, rfl, rfl⟩
      · split
        · exact ⟨ho, rfl, rfl⟩
        · split
          · exact ⟨ho, rfl, rfl⟩
          · split
            · exact ⟨ho, rfl, rfl⟩
            · have hp := diffProps_ends o.propsOf n.propsOf
              cases hdp : diffProps o.propsOf n.propsOf with
              | typeError => trivial
              | outOfFuel => rw [hdp] at hp; exact hp.elim
              | ok propsPatches =>
                simp only
                cases o with
                | absent => simp [VNode.allRecords] at ho
                | text s => simp [VNode.allRecords] at ho
                | elem t p och =>
                  cases n with
                  | absent => simp [VNode.allRecords] at hn
                  | text s => simp [VNode.allRecords] at hn
                  | elem t2 p2 nch =>
                    cases och with
                    | none => trivial
                    | some olds =>
                      cases nch with
                      | none => trivial
                      | some news =>
                        simp only [VNode.allRecords, VNode.allRecordsList_iff] at ho hn
                        simp only [VNode.size] at hsize
                        have hch := diffChildren_ends (diffRun f shouldYield) f olds news ho hn
                          (fun clock o n ho hn hs => (ih clock o n ho hn hs).mono (fun r h => ⟨h.1, h.2.1⟩))
                          (by omega)
                        simp only [VNode.childrenOf]
                        split
                        · trivial
                        · rename_i hr
                          have h1 := hch (if True then clock + 1 else clock)
                          rw [hr] at h1
                          exact h1.elim
                        · rename_i cp olds1 c1 hr
                          have h1 := hch (if True then clock + 1 else clock)
                          rw [hr] at h1
                          simp only [Res.EndsWith, VNode.withChildren, VNode.allRecords,
                            VNode.allRecordsList_iff, VNode.size, VNode.childrenOf, Option.map_some']
                          exact ⟨h1.1, by rw [h1.2.1], by rw [h1.2.2]⟩

/-! ## Claims on purity, the transition scope, deltas, removal, ties and termination -/

/-- C21 (amended): whenever a run of `diff` returns an operation list without a `MOVE`, the
old tree after the run is the old tree before it: every node of old holds the same child
sequence, in the same order, as before the call. -/
theorem C21_old_tree_kept_without_move (shouldYield : Nat → Bool) (fuel clock : Nat)
    (old new : VNode) (ops : List Patch) (old1 : VNode) (clock1 : Nat)
    (hrun : diffRun fuel shouldYield clock old new = .ok (ops, old1, clock1))
    (hno : ∀ p ∈ ops, p.isMove = false) : old1 = old :=
  diffRun_frame shouldYield fuel clock old new ops old1 clock1 hrun hno

/-- C21 (amended) at a list whose second child is replaced and which gains a third child. -/
theorem C21_witness :
    diffRun 6 neverYield 0 (node "div" [] [node "a" [] [], node "b" [] []])
        (node "div" [] [node "a" [] [], node "c" [] [], node "d" [] []])
      = .ok ([.REPLACE (node "c" [] []) 1, .ADD (node "d" [] []) 2],
          node "div" [] [node "a" [] [], node "b" [] []], 2) ∧
    (∀ p ∈ [Patch.REPLACE (node "c" [] []) 1, Patch.ADD (node "d" [] []) 2],
      p.isMove = false) ∧
    node "div" [] [node "a" [] [], node "b" [] []]
      = node "div" [] [node "a" [] [], node "b" [] []] :=
  ⟨rfl, by simp [Patch.isMove],
    C21_old_tree_kept_without_move neverYield 6 0 (node "div" [] [node "a" [] [], node "b" [] []])
      (node "div" [] [node "a" [] [], node "c" [] [], node "d" [] []])
      [.REPLACE (node "c" [] []) 1, .ADD (node "d" [] []) 2]
      (node "div" [] [node "a" [] [], node "b" [] []]) 2 rfl (by simp [Patch.isMove])⟩

/-- C21 (counterexample): for old `ul[li(1), li(2), li(3)]` and new `ul[li(3), li(1), li(2)]`
the run emits a `MOVE` and leaves the child sequence of the old tree as
`[li(3), li(1), li(2)]`, which is not the sequence it had before the call. -/
theorem C21_counterexample :
    diffRun 8 neverYield 0 (node "ul" [] [keyed 1, keyed 2, keyed 3])
        (node "ul" [] [keyed 3, keyed 1, keyed 2])
      = .ok ([.MOVE 2 0 none, .REPLACE (keyed 1) 0, .REPLACE (keyed 2) 1, .REMOVE 2],
          node "ul" [] [keyed 3, keyed 1, keyed 2], 1) ∧
    (node "ul" [] [keyed 3, keyed 1, keyed 2]).childrenOf = some [keyed 3, keyed 1, keyed 2] ∧
    (node "ul" [] [keyed 1, keyed 2, keyed 3]).childrenOf = some [keyed 1, keyed 2, keyed 3] ∧
    [keyed 3, keyed 1, keyed 2] ≠ [keyed 1, keyed 2, keyed 3] :=
  ⟨rfl, rfl, rfl, by simp [keyed, node]⟩

/-- C22: for every scope, every prior ambient priority and every other program state,
`startTransition` runs the scope on the state whose ambient priority is Low (the outcome
and the state left are those of the scope run there), and afterwards the ambient priority
is the prior one again, whether the scope returned or threw. -/
theorem C22_startTransition_restores_priority {σ : Type}
    (scope : Concurrency × σ → (Concurrency × σ) × Res Unit) (c : Concurrency) (w : σ) :
    (startTransition scope (c, w)).1.1.currentPriority = c.currentPriority ∧
    (startTransition scope (c, w)).2
      = (scope (⟨c.priorityThreshold, c.startTime, some LowPriority⟩, w)).2 ∧
    (startTransition scope (c, w)).1.2
      = (scope (⟨c.priorityThreshold, c.startTime, some LowPriority⟩, w)).1.2 :=
  ⟨rfl, rfl, rfl⟩

/-- C23 (evaluation at the failing input): when only the new mapping has a `style`,
`diffProps` reads a field of the `undefined` old style and throws, also when the new
style has no field; when both mappings have a style object the delta is the one the claim
describes. -/
theorem C23_new_style_without_old_style_throws :
    diffProps (some []) (some [("style", .obj 1 [("color", .str "red")])]) = .typeError ∧
    diffProps (some [("id", strVal "a")]) (some [("id", strVal "a"), ("style", .obj 1 [])])
      = .typeError ∧
    diffProps (some [("style", .obj 1 [("color", .str "red"), ("top", .str "0")])])
        (some [("style", .obj 2 [("color", .str "blue")])])
      = .ok [("style", .obj 0 [("color", .str "blue"), ("top", .str "")])] :=
  ⟨rfl, rfl, rfl⟩

/-- C24 (evaluation at the failing input): for old children `[li(1), li(2), li(3)]` and
new children `[li(1)]`, `diff` returns `REMOVE 1` then `REMOVE 2`. Replayed against the
rendering of the old children, the first removal shifts the last child to index 1, the
second finds no child at index 2 and throws, and the child list left is the rendering of
`[li(1), li(3)]`, not of `[li(1)]`. -/
theorem C24_second_tail_remove_misses :
    diff 8 neverYield (node "ul" [] [keyed 1, keyed 2, keyed 3]) (node "ul" [] [keyed 1])
      = .ok [.REMOVE 1, .REMOVE 2] ∧
    createElements [keyed 1, keyed 2, keyed 3] = .ok [keyedDom 1, keyedDom 2, keyedDom 3] ∧
    patch (container [keyedDom 1, keyedDom 2, keyedDom 3]) [.REMOVE 1, .REMOVE 2]
      = (container [keyedDom 1, keyedDom 3], none) ∧
    applyPatch (container [keyedDom 1, keyedDom 3]) (.REMOVE 2)
      = (container [keyedDom 1, keyedDom 3], false) ∧
    createElements [keyed 1] = .ok [keyedDom 1] :=
  ⟨rfl, rfl, rfl, rfl, rfl⟩

/-- C25: in every reachable state in which a batch merge can start (`isUpdating` false)
the queue is empty, and for every batch whose pushes read non-decreasing values of
`performance.now()`, the queue after the merge (the `forEach`, with its priority changes,
then the sort) never holds a task before another task of equal priority that has an
earlier enqueue time. -/
theorem C25_equal_priority_tasks_in_time_order (s : Scheduler) (batch : List (Request × Nat))
    (hs : Reachable s) (hidle : s.isUpdating = false)
    (hclock : (batch.map Prod.snd).Pairwise (· ≤ ·)) :
    s.updateQueue = [] ∧
    (mergeBatchTimed s.updateQueue batch).Pairwise
      (fun a b => a.priority = b.priority → a.startTime ≤ b.startTime) := by
  have hq := reachable_idle_queue_empty s hs hidle
  refine ⟨hq, ?_⟩
  rw [hq]
  apply sortQueue_time_order
  have h := mergeTimed_startTimes batch [] (by simpa using hclock)
  exact List.pairwise_map.mp h

/-- C25 at the batch Normal for component 1 (time 0), Idle for component 2 (time 1), Idle
for component 1 (time 2): component 1 reaches the priority of component 2 through the
later entry and stays in front of it. -/
theorem C25_witness :
    Reachable Scheduler.initial ∧ Scheduler.initial.isUpdating = false ∧
    (([((⟨1, false, NormalPriority⟩ : Request), 0), (⟨2, false, IdlePriority⟩, 1),
      (⟨1, false, IdlePriority⟩, 2)] : List (Request × Nat)).map Prod.snd).Pairwise (· ≤ ·) ∧
    mergeBatchTimed Scheduler.initial.updateQueue
        [(⟨1, false, NormalPriority⟩, 0), (⟨2, false, IdlePriority⟩, 1),
          (⟨1, false, IdlePriority⟩, 2)]
      = [⟨1, false, IdlePriority, 0⟩, ⟨2, false, IdlePriority, 1⟩] ∧
    (mergeBatchTimed Scheduler.initial.updateQueue
        [(⟨1, false, NormalPriority⟩, 0), (⟨2, false, IdlePriority⟩, 1),
          (⟨1, false, IdlePriority⟩, 2)]).Pairwise
      (fun a b => a.priority = b.priority → a.startTime ≤ b.startTime) :=
  ⟨Reachable.initial, rfl, by decide, by decide,
    (C25_equal_priority_tasks_in_time_order Scheduler.initial
      [(⟨1, false, NormalPriority⟩, 0), (⟨2, false, IdlePriority⟩, 1),
        (⟨1, false, IdlePriority⟩, 2)] Reachable.initial rfl (by decide)).2⟩

/-- C26: for all trees `old` and `new` in which every node and every child is a node record,
every oracle for `shouldYield()`, every starting clock and every fuel of at least
`old.size + new.size`, the run of `diff` ends, in an operation list or in an exception and
never for lack of fuel; when it ends in a result, the old tree it leaves is again a tree of
node records with the same number of nodes and a root child list of the same length (the
splices of the MOVE branch keep the length of the child list). -/
theorem C26_diff_terminates (shouldYield : Nat → Bool) (fuel clock : Nat) (old new : VNode)
    (hold : old.allRecords = true) (hnew : new.allRecords = true)
    (hfuel : old.size + new.size ≤ fuel) :
    diff fuel shouldYield old new ≠ .outOfFuel ∧
    diffRun fuel shouldYield clock old new ≠ .outOfFuel ∧
    ∀ ops old1 clock1, diffRun fuel shouldYield clock old new = .ok (ops, old1, clock1) →
      old1.allRecords = true ∧ old1.size = old.size ∧
      old1.childrenOf.map List.length = old.childrenOf.map List.length := by
  refine ⟨?_, (diffRun_ends shouldYield fuel clock old new hold hnew hfuel).ne_outOfFuel, ?_⟩
  · have h0 := (diffRun_ends shouldYield fuel 0 old new hold hnew hfuel).ne_outOfFuel
    unfold diff
    cases hr : diffRun fuel shouldYield 0 old new with
    | ok r => simp [Res.map]
    | typeError => simp [Res.map]
    | outOfFuel => exact absurd hr h0
  · intro ops old1 clock1 hr
    have h := diffRun_ends shouldYield fuel clock old new hold hnew hfuel
    rw [hr] at h
    exact h

/-- C26 at the swap of two keyed items, whose diff takes the MOVE branch, with an oracle
that answers true from the second call on. -/
theorem C26_witness :
    (node "ul" [] [keyed 1, keyed 2]).allRecords = true ∧
    (node "ul" [] [keyed 2, keyed 1]).allRecords = true ∧
    (node "ul" [] [keyed 1, keyed 2]).size + (node "ul" [] [keyed 2, keyed 1]).size ≤ 6 ∧
    diff 6 yieldAfterFirst (node "ul" [] [keyed 1, keyed 2]) (node "ul" [] [keyed 2, keyed 1])
      ≠ .outOfFuel :=
  ⟨by decide, by decide, by decide,
    (C26_diff_terminates yieldAfterFirst 6 0 (node "ul" [] [keyed 1, keyed 2])
      (node "ul" [] [keyed 2, keyed 1]) (by decide) (by decide) (by decide)).1⟩

end MiniReact
